import Mathlib

/-!
Verification of the VanMoof CAN-bus decoder core: frame classification,
multi-frame CBOR reassembly, grouped display, and the cross-capture
comparison engine.  Definitions are shallow embeddings of the Go sources
(`analyzer.go`, `decoder.go`, `types.go`, and the main loop / comparison
engine in the unnamed parts).  Bytes are modelled as `Nat` (payload bytes,
masked with `&&& 0xF0` exactly where the source masks), CAN identifiers as
`String` (the source keeps IDs as opaque text), capture timestamps as `ℚ`
(the source parses decimal text into float64; the comparisons used are
`==` and `<` on finite decimal values, which agree with `ℚ`).
-/

/-- Go `strings.HasPrefix p s`, modelled character-wise on the text.  (Go
compares bytes; for the ASCII identifiers this code handles, byte-wise and
character-wise prefix tests coincide.) -/
def hasPrefixText (p s : String) : Bool :=
  p.data.isPrefixOf s.data

/-- One parsed CAN bus frame (Go `CANFrame` in `types.go`).  Only the fields
the verified core reads are carried: the opaque text identifier `ID` and the
payload bytes `Data`.  (Timestamp text, extended flag, direction, bus and
length are ingestion/presentation concerns never read by the classifier,
reassembly, grouping or comparison logic.) -/
structure CANFrame where
  id : String
  data : List Nat
deriving DecidableEq

/-- A frame plus classification metadata (Go `FrameInfo` in `types.go`):
the extracted header byte, the accounted-for flags, the resolved timestamp
and the ingestion sequence number used to break timestamp ties. -/
structure FrameInfo where
  frame : CANFrame
  timestampFloat : ℚ
  header : Nat
  isCBOR : Bool
  isHeartbeat : Bool
  seqNum : Nat
deriving DecidableEq

/-- The four frame kinds assigned by the classifier (the Go code uses the
strings "START", "CONT", "HEARTBEAT", "UNACCOUNTED"). -/
inductive FrameKind where
  | start
  | cont
  | heartbeat
  | unaccounted
deriving DecidableEq

/-- Go `checkIfHeartbeat` (`analyzer.go` lines 45-56): the frame is a
heartbeat iff its CAN identifier starts with the text "01111" and every
payload byte is zero. -/
def checkIfHeartbeat (f : CANFrame) : Bool :=
  hasPrefixText "01111" f.id && f.data.all (fun b => b == 0)

/-- Go `analyzeRawFrame` (`analyzer.go` lines 9-42), restricted to its
Boolean result (the `verbose` printing carries no information).  It is a
first-match `switch`: the hardcoded IDs "14609460" and "18209820" match
first and leave `isHeartbeat` false; the "01111" prefix case sets it when
every byte is zero; the default leaves it false. -/
def analyzeRawFrame (f : CANFrame) : Bool :=
  if f.id = "14609460" then false
  else if hasPrefixText "01111" f.id then f.data.all (fun b => b == 0)
  else if f.id = "18209820" then false
  else false

/-- Frame classification as performed in `processFile`
(`src/unnamed/part_002` lines 399-421) and identically in the main loop
(lines 161-183): the header is `Data[0]`, high nibble 0xA0 means START,
0x10 means CONTINUATION, otherwise delegate to `checkIfHeartbeat`. -/
def classifyFrame (f : CANFrame) : FrameKind :=
  if f.data.headI &&& 0xF0 = 0xA0 then .start
  else if f.data.headI &&& 0xF0 = 0x10 then .cont
  else if checkIfHeartbeat f then .heartbeat
  else .unaccounted

/-!
## Reassembly engine

The main loop (`src/unnamed/part_002` lines 227-291) keeps three mutable
variables — `cborBuffer`, `lastCanID`, `frameCount` — and, per START or
CONTINUATION frame, first absorbs the header-stripped payload (START
discards a non-empty prior buffer, reporting its exact length and bytes;
CONTINUATION appends) and then attempts exactly one decode of the
accumulated buffer, emitting a completed message and retaining the
unconsumed suffix on success, and silently retaining the buffer on
failure.  HEARTBEAT/UNACCOUNTED frames `continue` before touching this
state.  The two observable outputs of that code region are modelled as
events: the discard warning and the completed-message report.
-/

/-- The reassembly state: the Go variables `cborBuffer`, `lastCanID` and
`frameCount` of the main loop. -/
structure DecoderState where
  cborBuffer : List Nat
  lastCanID : String
  frameCount : Nat
deriving DecidableEq

/-- The zero values the Go `var` declarations give the loop state. -/
def initState : DecoderState := ⟨[], "", 0⟩

/-- Observable outputs of the reassembly loop: the discard warning printed
on a START with a non-empty buffer (count and bytes, lines 233-236), and
the completed-message report printed on a successful decode (CAN ID, frame
count and bytes consumed, lines 277-280). -/
inductive Event where
  | discarded (count : Nat) (bytes : List Nat)
  | emitted (canId : String) (frameCount : Nat) (bytesConsumed : Nat)
deriving DecidableEq

/-- The external payload codec (`cbor.NewDecoder(...).Decode`), per the
black-box contract of spec §6: given a byte buffer it either fails, or
succeeds reporting the exact count of bytes consumed from the front.
`dec_nil` and `dec_mono` record what any streaming decoder of a
self-delimiting encoding (CBOR in the source) satisfies: no value can be
decoded from zero bytes, and a successful decode reads only the consumed
front of the buffer, so appending bytes does not change the result. -/
structure Codec where
  dec : List Nat → Option Nat
  dec_nil : dec [] = none
  dec_le : ∀ b n, dec b = some n → n ≤ b.length
  dec_mono : ∀ b t n, dec b = some n → dec (b ++ t) = some n

/-- The absorb half of a START/CONTINUATION iteration (lines 228-250):
START resets the buffer to the stripped payload `Data[1:]`, records the
frame's CAN ID and sets the frame count to 1, discarding (with a report)
any non-empty prior buffer; CONTINUATION appends the stripped payload and
increments the frame count. -/
def absorb (s : DecoderState) (f : CANFrame) : DecoderState × List Event :=
  if f.data.headI &&& 0xF0 = 0xA0 then
    (⟨f.data.tail, f.id, 1⟩,
     if s.cborBuffer.isEmpty then []
     else [.discarded s.cborBuffer.length s.cborBuffer])
  else
    (⟨s.cborBuffer ++ f.data.tail, s.lastCanID, s.frameCount + 1⟩, [])

/-- The decode half of a START/CONTINUATION iteration (lines 264-291): if
the buffer is non-empty, attempt exactly one decode; on success emit the
message and keep only the unconsumed suffix; on failure leave the state
untouched and report nothing. -/
def tryDecode (c : Codec) (s : DecoderState) : DecoderState × List Event :=
  if s.cborBuffer.isEmpty then (s, [])
  else
    match c.dec s.cborBuffer with
    | none => (s, [])
    | some n =>
      (⟨s.cborBuffer.drop n, s.lastCanID, s.frameCount⟩,
       [.emitted s.lastCanID s.frameCount n])

/-- One iteration of the main loop for one frame: START/CONTINUATION
frames are absorbed and then decoded once; HEARTBEAT/UNACCOUNTED frames
`continue` without touching the reassembly state. -/
def stepFrame (c : Codec) (s : DecoderState) (f : CANFrame) :
    DecoderState × List Event :=
  match classifyFrame f with
  | .start | .cont =>
    ((tryDecode c (absorb s f).1).1,
     (absorb s f).2 ++ (tryDecode c (absorb s f).1).2)
  | _ => (s, [])

/-- The main loop over a frame sequence, threading the reassembly state
and collecting the emitted events in order. -/
def runLoop (c : Codec) : DecoderState → List CANFrame → DecoderState × List Event
  | s, [] => (s, [])
  | s, f :: fs =>
    ((runLoop c (stepFrame c s f).1 fs).1,
     (stepFrame c s f).2 ++ (runLoop c (stepFrame c s f).1 fs).2)

/-- A buffer is structurally malformed for a codec when no extension of it
can ever decode: retrying with the same bytes (plus more) cannot succeed.
This is the "structural error unrelated to insufficient length" of
spec §7. -/
def malformedFor (c : Codec) (b : List Nat) : Prop :=
  ∀ t, c.dec (b ++ t) = none

/-- A small concrete instance of the codec contract, matching the CBOR
grammar fragment for unsigned integers: a first byte below 0x18 is a
complete one-byte value; first byte 0x18 needs exactly one more byte;
anything else (e.g. 0xFF, the CBOR break code) is malformed. -/
def tinyDec : List Nat → Option Nat
  | [] => none
  | h :: t =>
    if h < 0x18 then some 1
    else if h = 0x18 then
      match t with
      | [] => none
      | _ :: _ => some 2
    else none

def tinyCodec : Codec where
  dec := tinyDec
  dec_nil := rfl
  dec_le := by
    intro b n h
    match b with
    | [] => cases h
    | hd :: t =>
      simp only [tinyDec] at h
      split_ifs at h with h1 h2
      · cases h
        simp
      · match t with
        | [] => cases h
        | a :: t2 =>
          cases h
          simp
  dec_mono := by
    intro b t n h
    match b with
    | [] => cases h
    | hd :: tl =>
      simp only [tinyDec, List.cons_append] at h ⊢
      split_ifs at h ⊢ with h1 h2
      · exact h
      · match tl with
        | [] => cases h
        | a :: tl2 => exact h

/-- The concatenation of the stripped payloads of the frames `fs`. -/
def stripConcat (fs : List CANFrame) : List Nat :=
  (fs.map (fun f => f.data.tail)).flatten

/-!
## Grouping index (`displayGroupedFrames`, `decoder.go` lines 104-161)
-/

/-- Go string comparison `<`/`≤`, modelled as lexicographic order on the
character sequence (Go compares bytes; on the ASCII identifiers and hex
strings this code produces the two orders coincide). -/
def strLE (a b : String) : Prop := a.data ≤ b.data

instance : DecidableRel strLE := fun a b =>
  inferInstanceAs (Decidable (a.data ≤ b.data))

instance : IsTrans String strLE := ⟨fun _ _ _ h1 h2 => le_trans h1 h2⟩

instance : IsTotal String strLE := ⟨fun a b => le_total a.data b.data⟩

instance : IsAntisymm String strLE :=
  ⟨fun a b h1 h2 => by
    cases a
    cases b
    exact congrArg String.mk (by simpa using le_antisymm h1 h2)⟩

/-- The per-frame display filter of `displayGroupedFrames` (lines
134-144): with `hideAccounted`, drop CBOR-framing and heartbeat frames;
with `hideUnaccounted`, drop frames that are neither. -/
def keepFrame (hideAccounted hideUnaccounted : Bool) (f : FrameInfo) : Bool :=
  !(hideAccounted && (f.isCBOR || f.isHeartbeat)) &&
    !(hideUnaccounted && !f.isCBOR && !f.isHeartbeat)

/-- The within-group order of `displayGroupedFrames` (lines 126-132):
timestamp ascending, equal timestamps ordered by sequence number
ascending (the non-strict closure of the Go `less` comparator). -/
def frameLE (a b : FrameInfo) : Prop :=
  a.timestampFloat < b.timestampFloat ∨
    (a.timestampFloat = b.timestampFloat ∧ a.seqNum ≤ b.seqNum)

instance : DecidableRel frameLE := fun a b =>
  inferInstanceAs (Decidable (_ ∨ _))

instance : IsTotal FrameInfo frameLE :=
  ⟨fun a b => by
    rcases lt_trichotomy a.timestampFloat b.timestampFloat with h | h | h
    · exact Or.inl (Or.inl h)
    · rcases Nat.le_total a.seqNum b.seqNum with hs | hs
      · exact Or.inl (Or.inr ⟨h, hs⟩)
      · exact Or.inr (Or.inr ⟨h.symm, hs⟩)
    · exact Or.inr (Or.inl h)⟩

instance : IsTrans FrameInfo frameLE :=
  ⟨fun a b c h1 h2 => by
    rcases h1 with h1 | ⟨e1, s1⟩ <;> rcases h2 with h2 | ⟨e2, s2⟩
    · exact Or.inl (h1.trans h2)
    · exact Or.inl (by rw [← e2]; exact h1)
    · exact Or.inl (by rw [e1]; exact h2)
    · exact Or.inr ⟨e1.trans e2, s1.trans s2⟩⟩

/-- Go `displayGroupedFrames` (`decoder.go` lines 104-161) as the list of
groups it prints: frames are grouped by CAN ID (preserving arrival order
within a group), group IDs are listed in ascending string order, each
group is sorted by (timestamp, sequence number) and then filtered by the
active view; a group whose filtered list is empty is skipped. -/
def displayGroupedFrames (frames : List FrameInfo)
    (hideAccounted hideUnaccounted : Bool) : List (String × List FrameInfo) :=
  (((frames.map (fun f => f.frame.id)).dedup).insertionSort strLE).filterMap
    (fun id =>
      if (((frames.filter (fun f => f.frame.id == id)).insertionSort
            frameLE).filter
            (keepFrame hideAccounted hideUnaccounted)).isEmpty then none
      else some (id,
        ((frames.filter (fun f => f.frame.id == id)).insertionSort
          frameLE).filter (keepFrame hideAccounted hideUnaccounted)))

/-- Concrete frames for the grouping witness: two unaccounted frames on ID
"a" whose timestamps arrive out of order, and one CBOR frame on ID "b". -/
def wFrameA1 : FrameInfo := ⟨⟨"a", [5]⟩, 2, 5, false, false, 1⟩

def wFrameA2 : FrameInfo := ⟨⟨"a", [6]⟩, 1, 6, false, false, 2⟩

def wFrameB : FrameInfo := ⟨⟨"b", [0]⟩, 0, 0, true, false, 3⟩

/-!
## Comparison engine (`CompareUnaccountedFrames`, `src/unnamed/part_000`
lines 56-206)
-/

/-- Uppercase hex digit, as produced by Go `fmt.Sprintf("%X", ...)`. -/
def hexDigit (n : Nat) : Char :=
  if n < 10 then Char.ofNat (48 + n) else Char.ofNat (55 + n)

/-- Go `fmt.Sprintf("%X", data)` for a byte slice: two uppercase hex
digits per byte, no separators. -/
def dataHexOf (data : List Nat) : String :=
  ⟨(data.map (fun b => [hexDigit (b / 16 % 16), hexDigit (b % 16)])).flatten⟩

/-- Go `UnaccountedFrame` (part_000 lines 56-61): one distinct
(ID, header, payload-hex) shape with its filename → count occurrence map.
The Go map is modelled as an association list in first-insertion order;
claim C8 shows the categorized report does not depend on that order. -/
structure UnaccountedFrame where
  id : String
  header : Nat
  dataHex : String
  occurrences : List (String × Nat)
deriving DecidableEq

/-- The dedup key of a pattern: Go builds the string
`ID + ":" + header-hex + ":" + data-hex`; since the hex parts contain no
colon this key is in bijection with the triple, which we use directly. -/
def patShape (p : UnaccountedFrame) : String × Nat × String :=
  (p.id, p.header, p.dataHex)

/-- The shape of a classified frame: `(f.Frame.ID, f.Header, hex of
f.Frame.Data)` (part_000 lines 75-76). -/
def shapeOf (f : FrameInfo) : String × Nat × String :=
  (f.frame.id, f.header, dataHexOf f.frame.data)

/-- `framePatterns[key].Occurrences[filename]++` on the association list:
increment in place, or append `(fn, 1)` when absent. -/
def bumpOcc (fn : String) : List (String × Nat) → List (String × Nat)
  | [] => [(fn, 1)]
  | (g, c) :: t => if g = fn then (g, c + 1) :: t else (g, c) :: bumpOcc fn t

/-- Association-list read of the occurrence map (Go `p.Occurrences[fn]`
with `ok`). -/
def lookupOcc (fn : String) : List (String × Nat) → Option Nat
  | [] => none
  | (g, c) :: t => if g = fn then some c else lookupOcc fn t

/-- Fold one unaccounted frame of source `fn` into the pattern list
(part_000 lines 74-87): create the entry on first sight of its shape
(occurrence map starting empty), then increment its count for `fn`. -/
def addFrame (fn : String) (f : FrameInfo) :
    List UnaccountedFrame → List UnaccountedFrame
  | [] => [⟨f.frame.id, f.header, dataHexOf f.frame.data, bumpOcc fn []⟩]
  | p :: t =>
    if patShape p = shapeOf f then
      { p with occurrences := bumpOcc fn p.occurrences } :: t
    else p :: addFrame fn f t

/-- Fold one source's frames (part_000 lines 68-88): frames with
`IsCBOR || IsHeartbeat` are skipped; the rest are folded by shape. -/
def addSource (ps : List UnaccountedFrame) (src : String × List FrameInfo) :
    List UnaccountedFrame :=
  src.2.foldl
    (fun ps f => if f.isCBOR || f.isHeartbeat then ps else addFrame src.1 f ps)
    ps

/-- The whole pattern-collection fold over all sources (part_000 lines
66-88).  Go iterates the `fileFrames` map in unspecified order; the list
order here stands for one such order, and claim C8 proves the categorized
report is the same for every order. -/
def collectPatterns (srcs : List (String × List FrameInfo)) :
    List UnaccountedFrame :=
  srcs.foldl addSource []

/-- Category split, part_000 lines 120-130: patterns seen in every file. -/
def commonToAll (ps : List UnaccountedFrame) (n : Nat) :
    List UnaccountedFrame :=
  ps.filter (fun p => p.occurrences.length == n)

/-- Patterns seen in exactly one file, collected for file `fn` (the inner
`for fn := range pattern.Occurrences` loop reaches exactly the one key of
a size-1 map). -/
def uniqueFor (ps : List UnaccountedFrame) (n : Nat) (fn : String) :
    List UnaccountedFrame :=
  ps.filter (fun p => !(p.occurrences.length == n) &&
    p.occurrences.length == 1 && (lookupOcc fn p.occurrences).isSome)

/-- Patterns in more than one but not all files (the `else` branch). -/
def inSomeFiles (ps : List UnaccountedFrame) (n : Nat) :
    List UnaccountedFrame :=
  ps.filter (fun p => !(p.occurrences.length == n) &&
    !(p.occurrences.length == 1))

/-- The occurrence-map well-formedness that the fold maintains: at least
one entry, no duplicate filename keys, all keys drawn from the source
names. -/
def occGood (names : List String) (p : UnaccountedFrame) : Prop :=
  p.occurrences ≠ [] ∧ (p.occurrences.map Prod.fst).Nodup ∧
    ∀ g ∈ p.occurrences.map Prod.fst, g ∈ names

/-- Concrete two-source comparison input for the C7/C8 witnesses: sources
"capA" (two unaccounted shapes) and "capB" (one of them again). -/
def wSrcs : List (String × List FrameInfo) :=
  [("capA", [⟨⟨"100", [0x50]⟩, 0, 0x50, false, false, 1⟩,
             ⟨⟨"200", [0x60]⟩, 0, 0x60, false, false, 2⟩]),
   ("capB", [⟨⟨"100", [0x50]⟩, 5, 0x50, false, false, 1⟩])]

/-- Go string `<`, character-wise (strict counterpart of `strLE`). -/
def strLT (a b : String) : Prop := a.data < b.data

instance : DecidableRel strLT := fun a b =>
  inferInstanceAs (Decidable (a.data < b.data))

/-- The comparator of `sortFramesByID` (part_000 lines 188-198) as a
non-strict total order on pattern shapes: ascending by CAN ID text, then
header byte, then payload hex text. -/
def shapeLE (a b : String × Nat × String) : Prop :=
  strLT a.1 b.1 ∨ (a.1 = b.1 ∧
    (a.2.1 < b.2.1 ∨ (a.2.1 = b.2.1 ∧ strLE a.2.2 b.2.2)))

instance : DecidableRel shapeLE := fun a b =>
  inferInstanceAs (Decidable (_ ∨ _))

instance : IsTotal (String × Nat × String) shapeLE :=
  ⟨fun a b => by
    rcases lt_trichotomy a.1.data b.1.data with h | h | h
    · exact Or.inl (Or.inl h)
    · have he : a.1 = b.1 := by
        cases hx : a.1
        cases hy : b.1
        rw [hx, hy] at h
        exact congrArg String.mk h
      rcases lt_trichotomy a.2.1 b.2.1 with h2 | h2 | h2
      · exact Or.inl (Or.inr ⟨he, Or.inl h2⟩)
      · rcases le_total a.2.2.data b.2.2.data with h3 | h3
        · exact Or.inl (Or.inr ⟨he, Or.inr ⟨h2, h3⟩⟩)
        · exact Or.inr (Or.inr ⟨he.symm, Or.inr ⟨h2.symm, h3⟩⟩)
      · exact Or.inr (Or.inr ⟨he.symm, Or.inl h2⟩)
    · exact Or.inr (Or.inl h)⟩

instance : IsTrans (String × Nat × String) shapeLE :=
  ⟨fun a b c h1 h2 => by
    rcases h1 with h1 | ⟨e1, h1⟩ <;> rcases h2 with h2 | ⟨e2, h2⟩
    · exact Or.inl (h1.trans h2)
    · exact Or.inl (by rw [← e2]; exact h1)
    · exact Or.inl (by rw [e1]; exact h2)
    · refine Or.inr ⟨e1.trans e2, ?_⟩
      rcases h1 with h1 | ⟨f1, h1⟩ <;> rcases h2 with h2 | ⟨f2, h2⟩
      · exact Or.inl (h1.trans h2)
      · exact Or.inl (by rw [← f2]; exact h1)
      · exact Or.inl (by rw [f1]; exact h2)
      · exact Or.inr ⟨f1.trans f2, le_trans h1 h2⟩⟩

instance : IsAntisymm (String × Nat × String) shapeLE :=
  ⟨fun a b h1 h2 => by
    obtain ⟨a1, a2, a3⟩ := a
    obtain ⟨b1, b2, b3⟩ := b
    rcases h1 with h1 | ⟨e1, h1⟩
    · rcases h2 with h2 | ⟨e2, h2⟩
      · exact absurd h2 (lt_asymm h1)
      · exact absurd h1 (by rw [e2]; exact lt_irrefl _)
    · rcases h2 with h2 | ⟨e2, h2⟩
      · exact absurd h2 (by rw [e1]; exact lt_irrefl _)
      · simp only [Prod.mk.injEq]
        refine ⟨e1, ?_, ?_⟩
        · rcases h1 with h1 | ⟨f1, h1⟩ <;> rcases h2 with h2 | ⟨f2, h2⟩
          · exact absurd h2 (lt_asymm h1)
          · exact absurd h1 (by rw [f2]; exact lt_irrefl _)
          · exact absurd h2 (by rw [f1]; exact lt_irrefl _)
          · exact f1
        · rcases h1 with h1 | ⟨f1, h1⟩ <;> rcases h2 with h2 | ⟨f2, h2⟩
          · exact absurd h2 (lt_asymm h1)
          · exact absurd h1 (by rw [f2]; exact lt_irrefl _)
          · exact absurd h2 (by rw [f1]; exact lt_irrefl _)
          · have h3 : a3.data = b3.data := le_antisymm h1 h2
            cases a3
            cases b3
            exact congrArg String.mk h3⟩

/-- The comparator applied to whole patterns, as `sortFramesByID` does. -/
def patLE (p q : UnaccountedFrame) : Prop := shapeLE (patShape p) (patShape q)

instance : DecidableRel patLE := fun p q =>
  inferInstanceAs (Decidable (shapeLE (patShape p) (patShape q)))

instance : IsTotal UnaccountedFrame patLE :=
  ⟨fun p q => total_of shapeLE (patShape p) (patShape q)⟩

instance : IsTrans UnaccountedFrame patLE :=
  ⟨fun _ _ _ h1 h2 => trans_of shapeLE h1 h2⟩

/-- `sortFramesByID` (part_000 lines 188-198). -/
def sortFramesByID (ps : List UnaccountedFrame) : List UnaccountedFrame :=
  ps.insertionSort patLE

/-- `sort.Strings(filenames)` (part_000 lines 91-95). -/
def sortedNames (srcs : List (String × List FrameInfo)) : List String :=
  (srcs.map Prod.fst).insertionSort strLE

/-- Go map read `fileFrames[fn]` (zero value `nil` when absent). -/
def framesOf : List (String × List FrameInfo) → String → List FrameInfo
  | [], _ => []
  | s :: t, fn => if s.1 = fn then s.2 else framesOf t fn

/-- Per-file unaccounted count (part_000 lines 106-111). -/
def unaccCount (fs : List FrameInfo) : Nat :=
  (fs.filter (fun f => !f.isCBOR && !f.isHeartbeat)).length

/-- Go map read `p.Occurrences[fn]` (zero default). -/
def occCountD (p : UnaccountedFrame) (fn : String) : Nat :=
  (lookupOcc fn p.occurrences).getD 0

/-- Everything `CompareUnaccountedFrames` prints after the fold, in print
order and with all map/set iteration replaced by the sorted orders the Go
code itself establishes: the per-file summary (unaccounted/total), the
sorted common patterns with their count per sorted filename, the per-file
sorted unique patterns with their count, the sorted partially-shared
patterns with their (1-based file index, count) pairs, and the summary
totals (distinct patterns, common, unique, in-some). -/
structure ComparisonReport where
  files : List (String × Nat × Nat)
  commonRows : List ((String × Nat × String) × List Nat)
  uniqueRows : List (String × List ((String × Nat × String) × Nat))
  someRows : List ((String × Nat × String) × List (Nat × Nat))
  totals : Nat × Nat × Nat × Nat

/-- The categorized report of `CompareUnaccountedFrames` (part_000 lines
64-186). -/
def buildReport (srcs : List (String × List FrameInfo)) : ComparisonReport :=
  { files := (sortedNames srcs).map (fun fn =>
      (fn, unaccCount (framesOf srcs fn), (framesOf srcs fn).length)),
    commonRows := (sortFramesByID (commonToAll (collectPatterns srcs)
        (sortedNames srcs).length)).map (fun p =>
      (patShape p, (sortedNames srcs).map (fun fn => occCountD p fn))),
    uniqueRows := (sortedNames srcs).map (fun fn => (fn,
      (sortFramesByID (uniqueFor (collectPatterns srcs)
        (sortedNames srcs).length fn)).map (fun p =>
          (patShape p, occCountD p fn)))),
    someRows := (sortFramesByID (inSomeFiles (collectPatterns srcs)
        (sortedNames srcs).length)).map (fun p =>
      (patShape p, (sortedNames srcs).enum.filterMap (fun e =>
        match lookupOcc e.2 p.occurrences with
        | some c => some (e.1 + 1, c)
        | none => none))),
    totals := ((collectPatterns srcs).length,
      (commonToAll (collectPatterns srcs) (sortedNames srcs).length).length,
      ((sortedNames srcs).map (fun fn => (uniqueFor (collectPatterns srcs)
        (sortedNames srcs).length fn).length)).sum,
      (inSomeFiles (collectPatterns srcs) (sortedNames srcs).length).length) }

/-- One (source name, frame) entry stream equivalent to the nested fold:
sources in list order, each source's frames in order. -/
def flattenSrcs : List (String × List FrameInfo) → List (String × FrameInfo)
  | [] => []
  | s :: ss => s.2.map (fun f => (s.1, f)) ++ flattenSrcs ss

/-- One fold step of `CompareUnaccountedFrames` on a single entry. -/
def ingest (ps : List UnaccountedFrame) (e : String × FrameInfo) :
    List UnaccountedFrame :=
  if e.2.isCBOR || e.2.isHeartbeat then ps else addFrame e.1 e.2 ps

/-- First pattern with the given shape (`framePatterns[key]`). -/
def lookupPat (k : String × Nat × String) :
    List UnaccountedFrame → Option UnaccountedFrame
  | [] => none
  | p :: t => if patShape p = k then some p else lookupPat k t

/-- Entries of source `fn` that are unaccounted and have shape `k`. -/
def cntE (es : List (String × FrameInfo)) (fn : String)
    (k : String × Nat × String) : Nat :=
  (es.filter (fun e => e.1 == fn && !(e.2.isCBOR || e.2.isHeartbeat) &&
    (shapeOf e.2 == k))).length

/-- Unaccounted entries of shape `k` over all sources. -/
def cntAllE (es : List (String × FrameInfo))
    (k : String × Nat × String) : Nat :=
  (es.filter (fun e => !(e.2.isCBOR || e.2.isHeartbeat) &&
    (shapeOf e.2 == k))).length

/-- Invariant of the pattern fold: pattern shapes are distinct, absent
shapes have no matching entries processed so far, and each present
pattern's occurrence map reads back exactly the per-source entry counts
processed so far. -/
def patsOK (es : List (String × FrameInfo))
    (ps : List UnaccountedFrame) : Prop :=
  (ps.map patShape).Nodup ∧
  (∀ k, lookupPat k ps = none → cntAllE es k = 0) ∧
  (∀ k p, lookupPat k ps = some p →
    ∀ fn, lookupOcc fn p.occurrences =
      if cntE es fn k = 0 then none else some (cntE es fn k))

/-- Number of sources in which shape `k` occurs unaccounted. -/
def catLen (srcs : List (String × List FrameInfo))
    (k : String × Nat × String) : Nat :=
  ((sortedNames srcs).filter
    (fun fn => !(cntE (flattenSrcs srcs) fn k == 0))).length

theorem classify_start_iff (f : CANFrame) :
    classifyFrame f = .start ↔ f.data.headI &&& 0xF0 = 0xA0 := by
  unfold classifyFrame
  split_ifs <;> simp_all

theorem classify_cont_iff (f : CANFrame) (hA : f.data.headI &&& 0xF0 ≠ 0xA0) :
    classifyFrame f = .cont ↔ f.data.headI &&& 0xF0 = 0x10 := by
  unfold classifyFrame
  split_ifs <;> simp_all

theorem checkIfHeartbeat_eq_true (f : CANFrame) :
    checkIfHeartbeat f = true ↔
      (hasPrefixText "01111" f.id = true ∧ ∀ b ∈ f.data, b = 0) := by
  simp [checkIfHeartbeat, List.all_eq_true]

theorem classify_heartbeat_elim (f : CANFrame)
    (h : classifyFrame f = .heartbeat) :
    checkIfHeartbeat f = true ∧ f.data.headI &&& 0xF0 ≠ 0xA0 ∧
      f.data.headI &&& 0xF0 ≠ 0x10 := by
  unfold classifyFrame at h
  split_ifs at h <;> simp_all

theorem headI_set_ne_zero {l : List Nat} {i : Nat} {v : Nat} (h : i ≠ 0) :
    (l.set i v).headI = l.headI := by
  cases l with
  | nil => simp
  | cons a t =>
    cases i with
    | zero => exact absurd rfl h
    | succ n => simp

theorem mem_set_self : ∀ (l : List Nat) (i : Nat) (v : Nat),
    i < l.length → v ∈ l.set i v
  | _ :: _, 0, _, _ => by simp
  | _ :: t, i + 1, v, h => by
    simpa using Or.inr (mem_set_self t i v (by simpa using h))

/-- Claim C3: for every frame with non-empty payload, classification yields
START iff the header high nibble is 0xA0; otherwise CONTINUATION iff it is
0x10; otherwise HEARTBEAT iff the CAN identifier starts with "01111" and
every payload byte is zero; otherwise UNACCOUNTED.  Moreover flipping any
single payload byte of a heartbeat frame to a non-zero value (one that, if
it is the header byte, does not acquire a START/CONTINUATION nibble) yields
UNACCOUNTED. -/
theorem c3_classification (f : CANFrame) (hne : f.data ≠ []) :
    (classifyFrame f = .start ↔ f.data.headI &&& 0xF0 = 0xA0) ∧
    (f.data.headI &&& 0xF0 ≠ 0xA0 →
      (classifyFrame f = .cont ↔ f.data.headI &&& 0xF0 = 0x10)) ∧
    (f.data.headI &&& 0xF0 ≠ 0xA0 → f.data.headI &&& 0xF0 ≠ 0x10 →
      (classifyFrame f = .heartbeat ↔
        (hasPrefixText "01111" f.id = true ∧ ∀ b ∈ f.data, b = 0))) ∧
    (f.data.headI &&& 0xF0 ≠ 0xA0 → f.data.headI &&& 0xF0 ≠ 0x10 →
      checkIfHeartbeat f = false → classifyFrame f = .unaccounted) ∧
    (∀ i v, i < f.data.length → classifyFrame f = .heartbeat → v ≠ 0 →
      (i = 0 → v &&& 0xF0 ≠ 0xA0 ∧ v &&& 0xF0 ≠ 0x10) →
      classifyFrame { f with data := f.data.set i v } = .unaccounted) := by
  refine ⟨classify_start_iff f, classify_cont_iff f, ?_, ?_, ?_⟩
  · intro hA h1
    rw [← checkIfHeartbeat_eq_true]
    unfold classifyFrame
    split_ifs <;> simp_all
  · intro hA h1 hhb
    unfold classifyFrame
    split_ifs <;> simp_all
  · intro i v hi hhb hv hnib
    obtain ⟨hchk, hA, h1⟩ := classify_heartbeat_elim f hhb
    have hzero : ∀ b ∈ f.data, b = 0 :=
      ((checkIfHeartbeat_eq_true f).mp hchk).2
    have hhead : (f.data.set i v).headI &&& 0xF0 ≠ 0xA0 ∧
        (f.data.set i v).headI &&& 0xF0 ≠ 0x10 := by
      by_cases h0 : i = 0
      · subst h0
        rcases hd : f.data with _ | ⟨a, t⟩
        · rw [hd] at hi
          simp at hi
        · exact hnib rfl
      · rw [headI_set_ne_zero h0]
        exact ⟨hA, h1⟩
    have hnz : checkIfHeartbeat { f with data := f.data.set i v } = false := by
      unfold checkIfHeartbeat
      have hmem : v ∈ f.data.set i v := mem_set_self f.data i v hi
      simp only [Bool.and_eq_false_iff]
      right
      rw [List.all_eq_false]
      exact ⟨v, hmem, by simpa using hv⟩
    unfold classifyFrame
    rw [if_neg hhead.1, if_neg hhead.2, if_neg (by simp [hnz])]

/-- Witness for C3 at a concrete heartbeat frame: classification is
HEARTBEAT, and flipping the middle byte to 7 makes it UNACCOUNTED. -/
theorem c3_classification_witness :
    (classifyFrame ⟨"0111100", [0, 0, 0]⟩ = .heartbeat ↔
      (hasPrefixText "01111" "0111100" = true ∧ ∀ b ∈ [0, 0, 0], b = 0)) ∧
    classifyFrame ⟨"0111100", ([0, 0, 0].set 1 7)⟩ = .unaccounted := by
  have h := c3_classification ⟨"0111100", [0, 0, 0]⟩ (by decide)
  refine ⟨h.2.2.1 (by decide) (by decide), ?_⟩
  exact h.2.2.2.2 1 7 (by decide) (by decide) (by decide)
    (by intro h0; cases h0)

/-- Claim C10: the two heartbeat-detection implementations agree on every
frame: `analyzeRawFrame` detects a heartbeat iff `checkIfHeartbeat` does,
because the hardcoded IDs "14609460" and "18209820" evaluated earlier in
the first-match switch do not start with "01111", so the match order cannot
mask the prefix case. -/
theorem c10_heartbeat_impls_agree (f : CANFrame) :
    analyzeRawFrame f = checkIfHeartbeat f := by
  unfold analyzeRawFrame checkIfHeartbeat
  by_cases h14 : f.id = "14609460"
  · have hp : hasPrefixText "01111" "14609460" = false := by decide
    simp [h14, hp]
  · by_cases hpre : hasPrefixText "01111" f.id
    · simp [h14, hpre]
    · by_cases h18 : f.id = "18209820" <;>
        simp [h14, hpre, h18]

theorem absorb_start (s : DecoderState) (f : CANFrame)
    (hf : classifyFrame f = .start) :
    absorb s f = (⟨f.data.tail, f.id, 1⟩,
      if s.cborBuffer.isEmpty then []
      else [.discarded s.cborBuffer.length s.cborBuffer]) := by
  unfold absorb
  rw [if_pos ((classify_start_iff f).mp hf)]

theorem classify_cont_not_start {f : CANFrame} (hf : classifyFrame f = .cont) :
    f.data.headI &&& 0xF0 ≠ 0xA0 := by
  intro h
  rw [(classify_start_iff f).mpr h] at hf
  cases hf

theorem absorb_cont (s : DecoderState) (f : CANFrame)
    (hf : classifyFrame f = .cont) :
    absorb s f =
      (⟨s.cborBuffer ++ f.data.tail, s.lastCanID, s.frameCount + 1⟩, []) := by
  unfold absorb
  rw [if_neg (classify_cont_not_start hf)]

theorem tryDecode_none (c : Codec) (s : DecoderState)
    (h : c.dec s.cborBuffer = none) : tryDecode c s = (s, []) := by
  unfold tryDecode
  rw [h]
  split <;> rfl

theorem isEmpty_eq_false_of_dec_some {c : Codec} {b : List Nat} {n : Nat}
    (h : c.dec b = some n) : b.isEmpty = false := by
  cases hb : b with
  | nil =>
    rw [hb, c.dec_nil] at h
    cases h
  | cons a t => rfl

theorem tryDecode_some (c : Codec) (s : DecoderState) (n : Nat)
    (h : c.dec s.cborBuffer = some n) :
    tryDecode c s =
      (⟨s.cborBuffer.drop n, s.lastCanID, s.frameCount⟩,
       [.emitted s.lastCanID s.frameCount n]) := by
  unfold tryDecode
  rw [h, isEmpty_eq_false_of_dec_some h]
  rfl

theorem stepFrame_start (c : Codec) (s : DecoderState) (f : CANFrame)
    (hf : classifyFrame f = .start) :
    stepFrame c s f =
      ((tryDecode c (absorb s f).1).1,
       (absorb s f).2 ++ (tryDecode c (absorb s f).1).2) := by
  unfold stepFrame
  rw [hf]

theorem stepFrame_cont (c : Codec) (s : DecoderState) (f : CANFrame)
    (hf : classifyFrame f = .cont) :
    stepFrame c s f =
      ((tryDecode c (absorb s f).1).1,
       (absorb s f).2 ++ (tryDecode c (absorb s f).1).2) := by
  unfold stepFrame
  rw [hf]

/-- Shared: on a decode failure after absorbing a START or CONTINUATION,
the iteration result is exactly the absorb result — buffer retained
verbatim, no additional event. -/
theorem stepFrame_eq_absorb_of_dec_none (c : Codec) (s : DecoderState)
    (f : CANFrame) (hk : classifyFrame f = .start ∨ classifyFrame f = .cont)
    (hfail : c.dec (absorb s f).1.cborBuffer = none) :
    stepFrame c s f = absorb s f := by
  have hstep : stepFrame c s f =
      ((tryDecode c (absorb s f).1).1,
       (absorb s f).2 ++ (tryDecode c (absorb s f).1).2) := by
    cases hk with
    | inl h => exact stepFrame_start c s f h
    | inr h => exact stepFrame_cont c s f h
  rw [hstep, tryDecode_none c _ hfail]
  simp

/-- Claim C2: a START frame processed while the buffer is non-empty
discards the prior buffer, reporting a discarded-byte count equal to that
buffer's exact length (with its bytes), and leaves the new message state:
buffer = the START frame's payload with the header byte stripped, the
frame's CAN ID, frame count 1.  This is the START transition of the state
machine (lines 228-241); the subsequent decode attempt is a separate step
(lines 264-291, claims C1/C4). -/
theorem c2_start_discards (s : DecoderState) (f : CANFrame)
    (hf : classifyFrame f = .start) (hbuf : s.cborBuffer ≠ []) :
    absorb s f = (⟨f.data.tail, f.id, 1⟩,
      [Event.discarded s.cborBuffer.length s.cborBuffer]) := by
  rw [absorb_start s f hf]
  have : s.cborBuffer.isEmpty = false := by
    cases hb : s.cborBuffer with
    | nil => exact absurd hb hbuf
    | cons a t => rfl
  rw [this]
  rfl

/-- Witness for C2: concrete prior buffer of two bytes, concrete START. -/
theorem c2_start_discards_witness :
    absorb ⟨[1, 2], "old", 3⟩ ⟨"2AB", [0xA2, 5]⟩ =
      (⟨[5], "2AB", 1⟩, [Event.discarded 2 [1, 2]]) := by
  exact c2_start_discards ⟨[1, 2], "old", 3⟩ ⟨"2AB", [0xA2, 5]⟩
    (by decide) (by decide)

/-- Claim C4: for every absorbed START or CONTINUATION frame, if the
decode attempt fails then the whole iteration equals the absorb step
alone: the accumulated buffer is retained byte-for-byte, no event beyond
the absorb's own output is produced, and processing continues (the step
is a total function; the Go code ignores the error entirely). -/
theorem c4_decode_failure_retains (c : Codec) (s : DecoderState)
    (f : CANFrame) (hk : classifyFrame f = .start ∨ classifyFrame f = .cont)
    (hfail : c.dec (absorb s f).1.cborBuffer = none) :
    stepFrame c s f = absorb s f :=
  stepFrame_eq_absorb_of_dec_none c s f hk hfail

/-- Counterexample to claim C5: feed a CONTINUATION whose stripped payload
is the single byte 0xFF, which is structurally malformed for the codec (no
extension ever decodes).  The engine neither surfaces a diagnostic (empty
event list) nor drops the buffer (it retains [0xFF]); the claimed
drop-and-report policy is not implemented. -/
theorem c5_counterexample :
    malformedFor tinyCodec [0xFF] ∧
    stepFrame tinyCodec initState ⟨"123", [0x11, 0xFF]⟩ =
      (⟨[0xFF], "", 1⟩, []) :=
  ⟨fun _ => rfl, by decide⟩

/-- Claim C5 as amended: when the codec reports a structural (malformed)
error — a buffer no extension of which can decode — the engine does NOT
surface a diagnostic and does NOT drop the corrupted buffer: it treats the
failure exactly like an incomplete buffer, retaining it unchanged and
retrying the same bytes (plus any new ones) after the next frame.  (The
source never distinguishes the two failure kinds; spec §9 records this as
an open question.) -/
theorem c5_malformed_retained (c : Codec) (s : DecoderState) (f : CANFrame)
    (hk : classifyFrame f = .start ∨ classifyFrame f = .cont)
    (hmal : malformedFor c (absorb s f).1.cborBuffer) :
    stepFrame c s f = absorb s f := by
  have hfail : c.dec (absorb s f).1.cborBuffer = none := by
    have := hmal []
    rwa [List.append_nil] at this
  exact stepFrame_eq_absorb_of_dec_none c s f hk hfail

/-- Witness for the amended C5: concrete malformed buffer after a
CONTINUATION. -/
theorem c5_malformed_retained_witness :
    stepFrame tinyCodec ⟨[0xFF], "a", 1⟩ ⟨"123", [0x11, 0x2A]⟩ =
      absorb ⟨[0xFF], "a", 1⟩ ⟨"123", [0x11, 0x2A]⟩ :=
  c5_malformed_retained tinyCodec ⟨[0xFF], "a", 1⟩ ⟨"123", [0x11, 0x2A]⟩
    (Or.inr (by decide)) (fun _ => rfl)

/-- Counterexample to claim C6: a CONTINUATION arriving at the initial
state (no active message, empty buffer) is absorbed into a fresh buffer
without failing — but the event list is empty: no diagnostic of any kind
reports the desynchronization, contrary to the claim's second half. -/
theorem c6_counterexample :
    absorb initState ⟨"789", [0x11, 0xAB]⟩ = (⟨[0xAB], "", 1⟩, []) := by
  decide

/-- Claim C6 as amended: a CONTINUATION with no active message (empty
buffer) appends its stripped payload into a fresh empty buffer rather than
failing, and processing continues — but the desynchronization is NOT
reported: the engine produces no diagnostic distinguishing it from a
normal continuation. -/
theorem c6_cont_without_message (s : DecoderState) (f : CANFrame)
    (hf : classifyFrame f = .cont) (hbuf : s.cborBuffer = []) :
    absorb s f = (⟨f.data.tail, s.lastCanID, s.frameCount + 1⟩, []) := by
  rw [absorb_cont s f hf, hbuf]
  rfl

/-- Witness for the amended C6. -/
theorem c6_cont_without_message_witness :
    absorb ⟨[], "x", 4⟩ ⟨"789", [0x1B, 9, 9]⟩ = (⟨[9, 9], "x", 5⟩, []) :=
  c6_cont_without_message ⟨[], "x", 4⟩ ⟨"789", [0x1B, 9, 9]⟩
    (by decide) rfl

/-- With the codec contract, a strict prefix of a buffer that decodes by
consuming ALL its bytes can never decode: a streaming decoder that
succeeded on the prefix would, by `dec_mono`, return the same (too small)
consumed count on the full buffer. -/
theorem dec_proper_prefix_none (c : Codec) (a b : List Nat) (hb : b ≠ [])
    (h : c.dec (a ++ b) = some (a ++ b).length) : c.dec a = none := by
  cases hd : c.dec a with
  | none => rfl
  | some m =>
    have h2 := c.dec_mono a b m hd
    rw [h] at h2
    have hm : (a ++ b).length = m := by injection h2
    have hle : m ≤ a.length := c.dec_le a m hd
    rw [← hm, List.length_append] at hle
    have hb0 : b.length = 0 := by omega
    exact absurd (List.length_eq_zero.mp hb0) hb

theorem stripConcat_nil : stripConcat [] = [] := rfl

theorem stripConcat_cons (f : CANFrame) (fs : List CANFrame) :
    stripConcat (f :: fs) = f.data.tail ++ stripConcat fs := by
  simp [stripConcat]

theorem stripConcat_ne_nil {fs : List CANFrame} (hfs : fs ≠ [])
    (hne : ∀ f ∈ fs, f.data.tail ≠ []) :
    stripConcat fs ≠ [] := by
  match fs with
  | [] => exact absurd rfl hfs
  | f :: rest =>
    rw [stripConcat_cons]
    intro hcontra
    rcases List.append_eq_nil.mp hcontra with ⟨h1, _⟩
    exact hne f (by simp) h1

theorem runLoop_nil (c : Codec) (s : DecoderState) : runLoop c s [] = (s, []) :=
  rfl

theorem runLoop_cons (c : Codec) (s : DecoderState) (f : CANFrame)
    (fs : List CANFrame) :
    runLoop c s (f :: fs) =
      ((runLoop c (stepFrame c s f).1 fs).1,
       (stepFrame c s f).2 ++ (runLoop c (stepFrame c s f).1 fs).2) :=
  rfl

theorem stepFrame_cont_eval (c : Codec) (s : DecoderState) (f : CANFrame)
    (hf : classifyFrame f = .cont) :
    stepFrame c s f =
      tryDecode c ⟨s.cborBuffer ++ f.data.tail, s.lastCanID,
        s.frameCount + 1⟩ := by
  rw [stepFrame_cont c s f hf, absorb_cont s f hf]
  simp

theorem stepFrame_start_eval (c : Codec) (s : DecoderState) (f : CANFrame)
    (hf : classifyFrame f = .start) :
    stepFrame c s f =
      ((tryDecode c ⟨f.data.tail, f.id, 1⟩).1,
       (if s.cborBuffer.isEmpty then []
        else [Event.discarded s.cborBuffer.length s.cborBuffer]) ++
         (tryDecode c ⟨f.data.tail, f.id, 1⟩).2) := by
  rw [stepFrame_start c s f hf, absorb_start s f hf]

/-- Running the loop over continuation frames only, each contributing at
least one stripped byte, where the buffer-so-far extended by all remaining
stripped payloads decodes consuming everything: the loop emits exactly one
message at the final frame and empties the buffer. -/
theorem runLoop_cont_all (c : Codec) :
    ∀ (fs : List CANFrame) (s : DecoderState), fs ≠ [] →
    (∀ f ∈ fs, classifyFrame f = .cont) →
    (∀ f ∈ fs, f.data.tail ≠ []) →
    c.dec (s.cborBuffer ++ stripConcat fs) =
      some (s.cborBuffer ++ stripConcat fs).length →
    runLoop c s fs =
      (⟨[], s.lastCanID, s.frameCount + fs.length⟩,
       [Event.emitted s.lastCanID (s.frameCount + fs.length)
          (s.cborBuffer ++ stripConcat fs).length]) := by
  intro fs
  induction fs with
  | nil =>
    intro s h _ _ _
    exact absurd rfl h
  | cons f rest ih =>
    intro s _ hcls hne hdec
    have hf : classifyFrame f = .cont := hcls f (List.mem_cons_self f rest)
    cases rest with
    | nil =>
      rw [stripConcat_cons, stripConcat_nil, List.append_nil] at hdec ⊢
      have htry := tryDecode_some c ⟨s.cborBuffer ++ f.data.tail,
        s.lastCanID, s.frameCount + 1⟩ (s.cborBuffer ++ f.data.tail).length hdec
      simp only [runLoop_cons, stepFrame_cont_eval c s f hf, htry, runLoop_nil]
      simp [List.drop_length]
      omega
    | cons g rest2 =>
      rw [stripConcat_cons] at hdec ⊢
      have hjne : stripConcat (g :: rest2) ≠ [] :=
        stripConcat_ne_nil (by simp)
          (fun x hx => hne x (List.mem_cons_of_mem f hx))
      have hassoc : (s.cborBuffer ++ f.data.tail) ++ stripConcat (g :: rest2) =
          s.cborBuffer ++ (f.data.tail ++ stripConcat (g :: rest2)) :=
        List.append_assoc _ _ _
      have hdec1 : c.dec ((s.cborBuffer ++ f.data.tail) ++
          stripConcat (g :: rest2)) =
          some ((s.cborBuffer ++ f.data.tail) ++
            stripConcat (g :: rest2)).length := by
        rw [hassoc]
        exact hdec
      have hfail : c.dec (s.cborBuffer ++ f.data.tail) = none :=
        dec_proper_prefix_none c _ _ hjne hdec1
      have htry := tryDecode_none c ⟨s.cborBuffer ++ f.data.tail,
        s.lastCanID, s.frameCount + 1⟩ hfail
      have hih := ih ⟨s.cborBuffer ++ f.data.tail, s.lastCanID,
        s.frameCount + 1⟩ (by simp)
        (fun x hx => hcls x (List.mem_cons_of_mem f hx))
        (fun x hx => hne x (List.mem_cons_of_mem f hx))
        hdec1
      simp only [runLoop_cons, stepFrame_cont_eval c s f hf, htry, hih,
        List.nil_append]
      rw [← hassoc]
      simp only [Prod.mk.injEq, DecoderState.mk.injEq, List.cons.injEq,
        Event.emitted.injEq, List.length_cons]
      repeat' constructor
      all_goals first | rfl | omega

/-- Counterexample to claim C1 as stated: START carrying the complete
one-byte value 0x02 followed by one CONTINUATION with an empty stripped
payload.  The concatenated stripped payloads ([0x02]) are exactly one
valid encoded value consuming all bytes, and exactly one message is
emitted with an empty buffer afterwards — but its frame count is 1, not
1 + 1: the message completed (and was emitted) before the empty
continuation arrived. -/
theorem c1_counterexample :
    (runLoop tinyCodec initState
        [⟨"0AA", [0xA0, 0x02]⟩, ⟨"0AA", [0x10]⟩]).2 =
      [Event.emitted "0AA" 1 1] ∧
    (runLoop tinyCodec initState
        [⟨"0AA", [0xA0, 0x02]⟩, ⟨"0AA", [0x10]⟩]).1.cborBuffer = [] ∧
    Event.emitted "0AA" 1 1 ≠ Event.emitted "0AA" (1 + 1) 1 :=
  ⟨by decide, by decide, by decide⟩

/-- Claim C1 as amended: for one START followed by zero or more
CONTINUATIONS each carrying at least one stripped payload byte, whose
concatenated stripped payloads form exactly one valid encoded value
consuming all bytes, the loop (from the initial state) emits exactly one
decoded message, with frame count 1 plus the continuation count and the
START frame's CAN ID, and the buffer is empty afterward.  (The
continuation payloads must be non-empty so that the value completes only
at the last frame; see the counterexample.) -/
theorem c1_single_message (c : Codec) (f0 : CANFrame) (fs : List CANFrame)
    (h0 : classifyFrame f0 = .start)
    (hc : ∀ f ∈ fs, classifyFrame f = .cont)
    (hne : ∀ f ∈ fs, f.data.tail ≠ [])
    (hdec : c.dec (f0.data.tail ++ stripConcat fs) =
      some (f0.data.tail ++ stripConcat fs).length) :
    runLoop c initState (f0 :: fs) =
      (⟨[], f0.id, 1 + fs.length⟩,
       [Event.emitted f0.id (1 + fs.length)
          (f0.data.tail ++ stripConcat fs).length]) := by
  cases fs with
  | nil =>
    rw [stripConcat_nil, List.append_nil] at hdec ⊢
    have htry := tryDecode_some c ⟨f0.data.tail, f0.id, 1⟩
      f0.data.tail.length hdec
    rw [runLoop_cons, stepFrame_start_eval c initState f0 h0]
    rw [htry]
    dsimp only
    rw [runLoop_nil]
    simp [List.drop_length, initState]
    omega
  | cons g gs =>
    have hjne : stripConcat (g :: gs) ≠ [] :=
      stripConcat_ne_nil (by simp) hne
    have hfail : c.dec f0.data.tail = none :=
      dec_proper_prefix_none c _ _ hjne hdec
    have htry := tryDecode_none c ⟨f0.data.tail, f0.id, 1⟩ hfail
    have hih := runLoop_cont_all c (g :: gs) ⟨f0.data.tail, f0.id, 1⟩
      (by simp) hc hne hdec
    rw [runLoop_cons, stepFrame_start_eval c initState f0 h0]
    rw [htry]
    dsimp only
    rw [hih]
    simp [initState]

/-- Witness for the amended C1: START 0xA2 [0x18] then CONTINUATION 0x11
[0x2A]; the two stripped bytes [0x18, 0x2A] are one complete two-byte
value, so one message is emitted with frame count 2 and the buffer
empties. -/
theorem c1_single_message_witness :
    runLoop tinyCodec initState
        [⟨"2AB", [0xA2, 0x18]⟩, ⟨"2AB", [0x11, 0x2A]⟩] =
      (⟨[], "2AB", 2⟩, [Event.emitted "2AB" 2 2]) := by
  exact c1_single_message tinyCodec ⟨"2AB", [0xA2, 0x18]⟩
    [⟨"2AB", [0x11, 0x2A]⟩] (by decide) (by decide) (by decide) (by decide)

/-- Witness for C4: a continuation leaves the buffer [0x18], which needs
more bytes; the step equals the absorb step alone. -/
theorem c4_decode_failure_retains_witness :
    stepFrame tinyCodec ⟨[0x18], "m", 1⟩ ⟨"5", [0x11]⟩ =
      absorb ⟨[0x18], "m", 1⟩ ⟨"5", [0x11]⟩ :=
  c4_decode_failure_retains tinyCodec ⟨[0x18], "m", 1⟩ ⟨"5", [0x11]⟩
    (Or.inr (by decide)) (by decide)

/-- Claim C9: every displayed group is non-empty, internally ordered by
timestamp ascending with ties broken by sequence number ascending (a
total order), and holds exactly the group's frames that pass the active
view; conversely a CAN ID with at least one kept frame is displayed — so
a group is suppressed iff the view excludes all its frames. -/
theorem c9_grouped_display (frames : List FrameInfo) (hA hU : Bool) :
    (∀ id l, (id, l) ∈ displayGroupedFrames frames hA hU →
      l ≠ [] ∧ l.Sorted frameLE ∧
      l.Perm ((frames.filter (fun f => f.frame.id == id)).filter
        (keepFrame hA hU))) ∧
    (∀ id, (∃ f ∈ frames, f.frame.id = id ∧ keepFrame hA hU f = true) →
      ∃ l, (id, l) ∈ displayGroupedFrames frames hA hU) := by
  constructor
  · intro id l hmem
    rw [displayGroupedFrames, List.mem_filterMap] at hmem
    obtain ⟨id2, _, heq⟩ := hmem
    by_cases hemp : (((frames.filter
        (fun f => f.frame.id == id2)).insertionSort frameLE).filter
          (keepFrame hA hU)).isEmpty
    · rw [if_pos hemp] at heq
      cases heq
    · rw [if_neg hemp] at heq
      injection heq with heq2
      simp only [Prod.mk.injEq] at heq2
      obtain ⟨rfl, hl⟩ := heq2
      subst hl
      refine ⟨?_, ?_, ?_⟩
      · intro hnil
        rw [hnil] at hemp
        exact hemp rfl
      · exact (List.sorted_insertionSort frameLE _).filter _
      · exact List.Perm.filter _ (List.perm_insertionSort frameLE _)
  · rintro id ⟨f, hf, hfid, hkeep⟩
    have hfin : f ∈ ((frames.filter
        (fun x => x.frame.id == id)).insertionSort frameLE).filter
          (keepFrame hA hU) := by
      rw [List.mem_filter]
      refine ⟨?_, hkeep⟩
      rw [(List.perm_insertionSort frameLE _).mem_iff, List.mem_filter]
      exact ⟨hf, by simp [hfid]⟩
    refine ⟨((frames.filter (fun x => x.frame.id == id)).insertionSort
      frameLE).filter (keepFrame hA hU), ?_⟩
    rw [displayGroupedFrames, List.mem_filterMap]
    refine ⟨id, ?_, ?_⟩
    · rw [(List.perm_insertionSort strLE _).mem_iff, List.mem_dedup]
      exact List.mem_map.mpr ⟨f, hf, hfid⟩
    · rw [if_neg (fun h => (List.ne_nil_of_mem hfin)
        (List.isEmpty_iff.mp h))]

/-- Witness for C9: with `hideAccounted`, group "a" is displayed sorted by
timestamp ([A2 before A1]) and group "b" (all accounted) is suppressed
while ID "a" (having kept frames) is present. -/
theorem c9_grouped_display_witness :
    (([wFrameA2, wFrameA1] : List FrameInfo) ≠ [] ∧
     List.Sorted frameLE [wFrameA2, wFrameA1] ∧
     List.Perm [wFrameA2, wFrameA1]
       ((([wFrameA1, wFrameA2, wFrameB].filter
           (fun f => f.frame.id == "a"))).filter (keepFrame true false))) ∧
    (∃ l, ("a", l) ∈ displayGroupedFrames [wFrameA1, wFrameA2, wFrameB]
      true false) := by
  have h := c9_grouped_display [wFrameA1, wFrameA2, wFrameB] true false
  exact ⟨h.1 "a" [wFrameA2, wFrameA1] (by decide), h.2 "a" ⟨wFrameA1, by decide⟩⟩

theorem bumpOcc_ne_nil (fn : String) : ∀ occ, bumpOcc fn occ ≠ []
  | [] => by simp [bumpOcc]
  | (g, c) :: t => by
    by_cases h : g = fn <;> simp [bumpOcc, h]

theorem keys_bumpOcc (fn : String) : ∀ occ : List (String × Nat),
    (bumpOcc fn occ).map Prod.fst =
      if fn ∈ occ.map Prod.fst then occ.map Prod.fst
      else occ.map Prod.fst ++ [fn]
  | [] => by simp [bumpOcc]
  | (g, c) :: t => by
    by_cases h : g = fn
    · subst h
      simp [bumpOcc]
    · have hne : ¬fn = g := fun hh => h hh.symm
      by_cases h2 : fn ∈ t.map Prod.fst <;>
        simp [bumpOcc, h, keys_bumpOcc fn t, h2, hne]

theorem occGood_bump (names : List String) (fn : String) (hfn : fn ∈ names)
    (p : UnaccountedFrame) (h : occGood names p) :
    occGood names { p with occurrences := bumpOcc fn p.occurrences } := by
  obtain ⟨h1, h2, h3⟩ := h
  refine ⟨bumpOcc_ne_nil fn _, ?_, ?_⟩
  · show ((bumpOcc fn p.occurrences).map Prod.fst).Nodup
    rw [keys_bumpOcc]
    split_ifs with hmem
    · exact h2
    · exact h2.append (List.nodup_singleton fn)
        (List.disjoint_singleton.mpr hmem)
  · show ∀ g ∈ (bumpOcc fn p.occurrences).map Prod.fst, g ∈ names
    rw [keys_bumpOcc]
    split_ifs with hmem
    · exact h3
    · intro g hg
      rcases List.mem_append.mp hg with hg2 | hg2
      · exact h3 g hg2
      · rw [List.mem_singleton.mp hg2]
        exact hfn

theorem occGood_new (names : List String) (fn : String) (hfn : fn ∈ names)
    (f : FrameInfo) :
    occGood names ⟨f.frame.id, f.header, dataHexOf f.frame.data,
      bumpOcc fn []⟩ :=
  ⟨by simp [bumpOcc], by simp [bumpOcc], by simp [bumpOcc, hfn]⟩

theorem addFrame_occGood (names : List String) (fn : String)
    (hfn : fn ∈ names) (f : FrameInfo) : ∀ ps : List UnaccountedFrame,
    (∀ p ∈ ps, occGood names p) → ∀ p ∈ addFrame fn f ps, occGood names p
  | [], _ => by
    intro p hp
    simp only [addFrame, List.mem_singleton] at hp
    subst hp
    exact occGood_new names fn hfn f
  | q :: t, h => by
    intro p hp
    simp only [addFrame] at hp
    by_cases hq : patShape q = shapeOf f
    · rw [if_pos hq] at hp
      rcases List.mem_cons.mp hp with rfl | hp2
      · exact occGood_bump names fn hfn q (h q (List.mem_cons_self q t))
      · exact h p (List.mem_cons_of_mem q hp2)
    · rw [if_neg hq] at hp
      rcases List.mem_cons.mp hp with rfl | hp2
      · exact h p (List.mem_cons_self p t)
      · exact addFrame_occGood names fn hfn f t
          (fun r hr => h r (List.mem_cons_of_mem q hr)) p hp2

theorem foldl_addFrame_occGood (names : List String) (fn : String)
    (hfn : fn ∈ names) : ∀ (frames : List FrameInfo)
    (ps : List UnaccountedFrame), (∀ p ∈ ps, occGood names p) →
    ∀ p ∈ frames.foldl
      (fun ps f => if f.isCBOR || f.isHeartbeat then ps else addFrame fn f ps)
      ps, occGood names p
  | [], _, h => h
  | f :: fs, ps, h => by
    simp only [List.foldl_cons]
    apply foldl_addFrame_occGood names fn hfn fs
    by_cases hc : f.isCBOR || f.isHeartbeat
    · simpa [hc] using h
    · rw [if_neg hc]
      exact addFrame_occGood names fn hfn f ps h

theorem foldl_addSource_occGood (names : List String) :
    ∀ (srcs : List (String × List FrameInfo)) (ps : List UnaccountedFrame),
    (∀ s ∈ srcs, s.1 ∈ names) → (∀ p ∈ ps, occGood names p) →
    ∀ p ∈ srcs.foldl addSource ps, occGood names p
  | [], _, _, h => h
  | s :: ss, ps, hs, h => by
    simp only [List.foldl_cons]
    exact foldl_addSource_occGood names ss (addSource ps s)
      (fun x hx => hs x (List.mem_cons_of_mem s hx))
      (foldl_addFrame_occGood names s.1 (hs s (List.mem_cons_self s ss))
        s.2 ps h)

theorem collectPatterns_occGood (srcs : List (String × List FrameInfo)) :
    ∀ p ∈ collectPatterns srcs, occGood (srcs.map Prod.fst) p :=
  foldl_addSource_occGood _ srcs []
    (fun s hs => List.mem_map_of_mem _ hs) (by simp)

theorem sum_map_add {α : Type} (l : List α) (f g : α → Nat) :
    (l.map (fun x => f x + g x)).sum = (l.map f).sum + (l.map g).sum := by
  induction l with
  | nil => rfl
  | cons a t ih =>
    simp only [List.map_cons, List.sum_cons, ih]
    omega

theorem sum_map_ite {α : Type} (l : List α) (q : α → Bool) :
    (l.map (fun x => if q x = true then 1 else 0)).sum =
      (l.filter q).length := by
  induction l with
  | nil => rfl
  | cons a t ih =>
    by_cases h : q a = true <;> simp [List.filter_cons, h, ih] <;> omega

theorem sum_map_one {α : Type} (l : List α) :
    (l.map (fun _ => 1)).sum = l.length := by
  simp

theorem length_filter_cons {α : Type} (q : α → Bool) (a : α) (l : List α) :
    ((a :: l).filter q).length =
      (if q a = true then 1 else 0) + (l.filter q).length := by
  by_cases h : q a = true <;> simp [List.filter_cons, h] <;> omega

theorem sum_filter_swap (names : List String)
    (pred : String → UnaccountedFrame → Bool) :
    ∀ ps : List UnaccountedFrame,
    (names.map (fun fn => (ps.filter (pred fn)).length)).sum =
      (ps.map (fun p => (names.filter (fun fn => pred fn p)).length)).sum
  | [] => by simp
  | p :: tl => by
    have hcong : names.map (fun fn => (((p :: tl)).filter (pred fn)).length) =
        names.map (fun fn =>
          (if pred fn p = true then 1 else 0) + ((tl.filter (pred fn)).length)) :=
      List.map_congr_left (fun fn _ => length_filter_cons (pred fn) p tl)
    rw [hcong, sum_map_add, sum_map_ite, sum_filter_swap names pred tl]
    simp

theorem bucket_eq_one (names : List String) (hnd : names.Nodup) (n : Nat)
    (p : UnaccountedFrame) (h : occGood names p) :
    (if (p.occurrences.length == n) = true then 1 else 0) +
      (names.filter (fun fn => !(p.occurrences.length == n) &&
        p.occurrences.length == 1 &&
        (lookupOcc fn p.occurrences).isSome)).length +
      (if (!(p.occurrences.length == n) &&
        !(p.occurrences.length == 1)) = true then 1 else 0) = 1 := by
  obtain ⟨hne, hkeys, hsub⟩ := h
  by_cases hn : p.occurrences.length = n
  · simp [hn]
  · by_cases h1 : p.occurrences.length = 1
    · obtain ⟨⟨g, c⟩, hocc⟩ := List.length_eq_one.mp h1
      have hg : g ∈ names := hsub g (by simp [hocc])
      have hn1 : ¬(1 : Nat) = n := h1 ▸ hn
      have hcong : names.filter (fun fn => !(p.occurrences.length == n) &&
          p.occurrences.length == 1 &&
          (lookupOcc fn p.occurrences).isSome) =
          names.filter (fun fn => fn == g) := by
        apply List.filter_congr
        intro fn _
        by_cases hgfn : g = fn
        · simp [hocc, lookupOcc, hgfn, hn, h1, hn1]
        · simp [hocc, lookupOcc, hgfn, hn, h1, hn1, Ne.symm hgfn]
      rw [hcong]
      have : (names.filter (fun fn => fn == g)).length = names.count g := by
        rw [List.count, List.countP_eq_length_filter]
      rw [this, List.count_eq_one_of_mem hnd hg]
      simp [hn, h1, hn1]
    · simp [hn, h1]

theorem partition_count (names : List String) (hnd : names.Nodup) (n : Nat)
    (ps : List UnaccountedFrame) (h : ∀ p ∈ ps, occGood names p) :
    (commonToAll ps n).length +
      (names.map (fun fn => (uniqueFor ps n fn).length)).sum +
      (inSomeFiles ps n).length = ps.length := by
  unfold commonToAll uniqueFor inSomeFiles
  rw [← sum_map_ite ps (fun p => p.occurrences.length == n),
    ← sum_map_ite ps (fun p => !(p.occurrences.length == n) &&
      !(p.occurrences.length == 1)),
    sum_filter_swap names (fun fn p => !(p.occurrences.length == n) &&
      p.occurrences.length == 1 && (lookupOcc fn p.occurrences).isSome) ps,
    ← sum_map_add, ← sum_map_add]
  have hone : ps.map (fun p =>
      (if (p.occurrences.length == n) = true then 1 else 0) +
        (names.filter (fun fn => !(p.occurrences.length == n) &&
          p.occurrences.length == 1 &&
          (lookupOcc fn p.occurrences).isSome)).length +
        (if (!(p.occurrences.length == n) &&
          !(p.occurrences.length == 1)) = true then 1 else 0)) =
      ps.map (fun _ => 1) :=
    List.map_congr_left (fun p hp => bucket_eq_one names hnd n p (h p hp))
  rw [hone, sum_map_one]

/-- Claim C7: the three categories partition the collected patterns.  For
a multi-source run (at least two sources, distinct names): the count
equation len(common) + sum over sources of len(unique per source) +
len(partial) = total distinct patterns holds, and for every collected
pattern: its occurrence-key count lies in [1, #sources]; it is common iff
that count equals the source count; unique (to some source) iff the count
is 1; partial iff the count is neither. -/
theorem c7_pattern_partition (srcs : List (String × List FrameInfo))
    (hn : 2 ≤ srcs.length) (hnd : (srcs.map Prod.fst).Nodup) :
    ((commonToAll (collectPatterns srcs) srcs.length).length +
      ((srcs.map Prod.fst).map (fun fn =>
        (uniqueFor (collectPatterns srcs) srcs.length fn).length)).sum +
      (inSomeFiles (collectPatterns srcs) srcs.length).length =
      (collectPatterns srcs).length) ∧
    (∀ p ∈ collectPatterns srcs,
      (1 ≤ p.occurrences.length ∧ p.occurrences.length ≤ srcs.length) ∧
      (p ∈ commonToAll (collectPatterns srcs) srcs.length ↔
        p.occurrences.length = srcs.length) ∧
      ((∃ fn ∈ srcs.map Prod.fst,
        p ∈ uniqueFor (collectPatterns srcs) srcs.length fn) ↔
        p.occurrences.length = 1) ∧
      (p ∈ inSomeFiles (collectPatterns srcs) srcs.length ↔
        (p.occurrences.length ≠ srcs.length ∧
          p.occurrences.length ≠ 1))) := by
  have hgood := collectPatterns_occGood srcs
  constructor
  · exact partition_count (srcs.map Prod.fst) hnd srcs.length
      (collectPatterns srcs) hgood
  · intro p hp
    obtain ⟨hne, hkeys, hsub⟩ := hgood p hp
    refine ⟨⟨?_, ?_⟩, ?_, ?_, ?_⟩
    · have := List.length_pos.mpr hne
      omega
    · have hlen : (p.occurrences.map Prod.fst).length ≤
          (srcs.map Prod.fst).length :=
        (List.subperm_of_subset hkeys (fun x hx => hsub x hx)).length_le
      simpa using hlen
    · simp [commonToAll, List.mem_filter, hp]
    · constructor
      · rintro ⟨fn, _, hmem⟩
        rw [uniqueFor, List.mem_filter] at hmem
        have h2 := hmem.2
        simp only [Bool.and_eq_true, beq_iff_eq] at h2
        exact h2.1.2
      · intro h1
        obtain ⟨⟨g, c⟩, hocc⟩ := List.length_eq_one.mp h1
        have hg : g ∈ srcs.map Prod.fst := hsub g (by simp [hocc])
        refine ⟨g, hg, ?_⟩
        rw [uniqueFor, List.mem_filter]
        refine ⟨hp, ?_⟩
        have hn2 : ¬(1 : Nat) = srcs.length := by omega
        simp [hocc, lookupOcc, hn2]
    · simp [inSomeFiles, List.mem_filter, hp]

/-- Witness for C7 at the concrete two-source input: 1 common + 1 unique
+ 0 partial = 2 distinct patterns. -/
theorem c7_pattern_partition_witness :
    (commonToAll (collectPatterns wSrcs) wSrcs.length).length +
      ((wSrcs.map Prod.fst).map (fun fn =>
        (uniqueFor (collectPatterns wSrcs) wSrcs.length fn).length)).sum +
      (inSomeFiles (collectPatterns wSrcs) wSrcs.length).length =
      (collectPatterns wSrcs).length :=
  (c7_pattern_partition wSrcs (by decide) (by decide)).1

theorem strEq_of_data_eq {a b : String} (h : a.data = b.data) : a = b := by
  cases a
  cases b
  exact congrArg String.mk h

theorem addSource_eq_foldl (fn : String) : ∀ (frames : List FrameInfo)
    (ps : List UnaccountedFrame),
    addSource ps (fn, frames) = (frames.map (fun f => (fn, f))).foldl ingest ps
  | [], _ => rfl
  | f :: fs, ps => by
    show addSource (if f.isCBOR || f.isHeartbeat then ps else addFrame fn f ps)
      (fn, fs) = _
    rw [addSource_eq_foldl fn fs]
    rfl

theorem foldl_addSource_eq (srcs : List (String × List FrameInfo)) :
    ∀ ps : List UnaccountedFrame,
    srcs.foldl addSource ps = (flattenSrcs srcs).foldl ingest ps := by
  induction srcs with
  | nil => intro ps; rfl
  | cons s ss ih =>
    intro ps
    obtain ⟨fn, frames⟩ := s
    show ss.foldl addSource (addSource ps (fn, frames)) = _
    rw [ih, addSource_eq_foldl fn frames]
    show _ = ((frames.map (fun f => (fn, f))) ++ flattenSrcs ss).foldl ingest ps
    rw [List.foldl_append]

theorem collectPatterns_eq_foldl (srcs : List (String × List FrameInfo)) :
    collectPatterns srcs = (flattenSrcs srcs).foldl ingest [] :=
  foldl_addSource_eq srcs []

theorem lookupOcc_bumpOcc (fn fn2 : String) : ∀ occ : List (String × Nat),
    lookupOcc fn2 (bumpOcc fn occ) =
      if fn2 = fn then some ((lookupOcc fn occ).getD 0 + 1)
      else lookupOcc fn2 occ
  | [] => by
    by_cases h : fn2 = fn
    · simp [bumpOcc, lookupOcc, h]
    · simp [bumpOcc, lookupOcc, h, Ne.symm h]
  | (g, c) :: t => by
    by_cases hg : g = fn
    · subst hg
      by_cases h2 : fn2 = g
      · simp [bumpOcc, lookupOcc, h2]
      · simp [bumpOcc, lookupOcc, h2, Ne.symm h2]
    · by_cases h2 : g = fn2
      · have hf : ¬fn2 = fn := fun hh => hg (h2.trans hh)
        simp [bumpOcc, lookupOcc, hg, h2, hf]
      · simp [bumpOcc, lookupOcc, hg, h2, lookupOcc_bumpOcc fn fn2 t]

theorem patShape_update (p : UnaccountedFrame) (occ : List (String × Nat)) :
    patShape { p with occurrences := occ } = patShape p := rfl

theorem shapes_addFrame (fn : String) (f : FrameInfo) :
    ∀ ps : List UnaccountedFrame,
    (addFrame fn f ps).map patShape =
      if shapeOf f ∈ ps.map patShape then ps.map patShape
      else ps.map patShape ++ [shapeOf f]
  | [] => by simp [addFrame, patShape, shapeOf]
  | p :: t => by
    by_cases hp : patShape p = shapeOf f
    · simp only [addFrame, if_pos hp, List.map_cons]
      rw [if_pos (List.mem_cons.mpr (Or.inl hp.symm))]
      rfl
    · simp only [addFrame, if_neg hp, List.map_cons, shapes_addFrame fn f t]
      have hne : ¬shapeOf f = patShape p := fun hh => hp hh.symm
      by_cases hmem : shapeOf f ∈ t.map patShape
      · rw [if_pos hmem, if_pos (List.mem_cons.mpr (Or.inr hmem))]
      · rw [if_neg hmem, if_neg (by simp [hne, hmem])]
        simp

theorem lookupPat_addFrame_other (fn : String) (f : FrameInfo)
    (k : String × Nat × String) (hk : k ≠ shapeOf f) :
    ∀ ps, lookupPat k (addFrame fn f ps) = lookupPat k ps
  | [] => by
    have hne : ¬patShape (⟨f.frame.id, f.header, dataHexOf f.frame.data,
        bumpOcc fn []⟩ : UnaccountedFrame) = k := fun hh => hk hh.symm
    simp only [addFrame, lookupPat, if_neg hne]
  | p :: t => by
    by_cases hp : patShape p = shapeOf f
    · have h1 : ¬patShape { p with occurrences := bumpOcc fn p.occurrences } =
          k := by
        rw [patShape_update, hp]
        exact fun hh => hk hh.symm
      have h2 : ¬patShape p = k := by
        rw [hp]
        exact fun hh => hk hh.symm
      simp only [addFrame, if_pos hp, lookupPat, if_neg h1, if_neg h2]
    · simp only [addFrame, if_neg hp, lookupPat]
      by_cases h2 : patShape p = k
      · rw [if_pos h2, if_pos h2]
      · rw [if_neg h2, if_neg h2, lookupPat_addFrame_other fn f k hk t]

theorem lookupPat_addFrame_none (fn : String) (f : FrameInfo) :
    ∀ ps, lookupPat (shapeOf f) ps = none →
    lookupPat (shapeOf f) (addFrame fn f ps) =
      some ⟨f.frame.id, f.header, dataHexOf f.frame.data, bumpOcc fn []⟩
  | [], _ => by
    simp only [addFrame, lookupPat]
    split
    · rfl
    · next hcond => exact absurd rfl hcond
  | p :: t, h => by
    simp only [lookupPat] at h
    by_cases hp : patShape p = shapeOf f
    · rw [if_pos hp] at h
      cases h
    · rw [if_neg hp] at h
      simp only [addFrame, if_neg hp, lookupPat, if_neg hp]
      exact lookupPat_addFrame_none fn f t h

theorem lookupPat_addFrame_some (fn : String) (f : FrameInfo) :
    ∀ ps p, lookupPat (shapeOf f) ps = some p →
    lookupPat (shapeOf f) (addFrame fn f ps) =
      some { p with occurrences := bumpOcc fn p.occurrences }
  | [], p, h => by cases h
  | q :: t, p, h => by
    simp only [lookupPat] at h
    by_cases hq : patShape q = shapeOf f
    · rw [if_pos hq] at h
      injection h with h
      subst h
      simp only [addFrame, if_pos hq, lookupPat]
      rw [if_pos (by rw [patShape_update]; exact hq)]
    · rw [if_neg hq] at h
      simp only [addFrame, if_neg hq, lookupPat, if_neg hq]
      exact lookupPat_addFrame_some fn f t p h

theorem lookupPat_shape_mem (k : String × Nat × String) :
    ∀ ps p, lookupPat k ps = some p → patShape p = k ∧ p ∈ ps
  | [], p, h => by cases h
  | q :: t, p, h => by
    simp only [lookupPat] at h
    by_cases hq : patShape q = k
    · rw [if_pos hq] at h
      injection h with h
      subst h
      exact ⟨hq, List.mem_cons_self q t⟩
    · rw [if_neg hq] at h
      obtain ⟨h1, h2⟩ := lookupPat_shape_mem k t p h
      exact ⟨h1, List.mem_cons_of_mem q h2⟩

theorem lookupPat_eq_none_iff (k : String × Nat × String) :
    ∀ ps, lookupPat k ps = none ↔ k ∉ ps.map patShape
  | [] => by simp [lookupPat]
  | p :: t => by
    simp only [lookupPat, List.map_cons, List.mem_cons]
    by_cases hp : patShape p = k
    · simp [hp]
    · rw [if_neg hp, lookupPat_eq_none_iff k t]
      constructor
      · intro h hmem
        rcases hmem with hmem | hmem
        · exact hp hmem.symm
        · exact h hmem
      · intro h hmem
        exact h (Or.inr hmem)

theorem cntE_append (es : List (String × FrameInfo)) (e : String × FrameInfo)
    (fn : String) (k : String × Nat × String) :
    cntE (es ++ [e]) fn k = cntE es fn k +
      (if (e.1 == fn && !(e.2.isCBOR || e.2.isHeartbeat) &&
        (shapeOf e.2 == k)) = true then 1 else 0) := by
  unfold cntE
  rw [List.filter_append, List.length_append, List.filter_singleton]
  cases hpred : (e.1 == fn && !(e.2.isCBOR || e.2.isHeartbeat) &&
      (shapeOf e.2 == k)) <;> simp

theorem cntAllE_append (es : List (String × FrameInfo))
    (e : String × FrameInfo) (k : String × Nat × String) :
    cntAllE (es ++ [e]) k = cntAllE es k +
      (if (!(e.2.isCBOR || e.2.isHeartbeat) &&
        (shapeOf e.2 == k)) = true then 1 else 0) := by
  unfold cntAllE
  rw [List.filter_append, List.length_append, List.filter_singleton]
  cases hpred : (!(e.2.isCBOR || e.2.isHeartbeat) &&
      (shapeOf e.2 == k)) <;> simp

theorem cntE_zero_of_cntAllE_zero {es : List (String × FrameInfo)}
    {k : String × Nat × String} (h : cntAllE es k = 0) (fn : String) :
    cntE es fn k = 0 := by
  unfold cntAllE at h
  unfold cntE
  rw [List.length_eq_zero, List.filter_eq_nil_iff] at h ⊢
  intro e he hpred
  apply h e he
  simp only [Bool.and_eq_true] at hpred ⊢
  exact ⟨hpred.1.2, hpred.2⟩

theorem patsOK_step (es : List (String × FrameInfo))
    (ps : List UnaccountedFrame) (e : String × FrameInfo)
    (h : patsOK es ps) : patsOK (es ++ [e]) (ingest ps e) := by
  obtain ⟨hnd, hnone, hsome⟩ := h
  by_cases hacc : e.2.isCBOR || e.2.isHeartbeat
  · rw [ingest, if_pos hacc]
    refine ⟨hnd, ?_, ?_⟩
    · intro k hk
      rw [cntAllE_append]
      simp [hacc, hnone k hk]
    · intro k p hk fn
      rw [cntE_append]
      simp only [hacc, Bool.not_true, Bool.and_false, Bool.false_and,
        if_neg (Bool.false_ne_true), Nat.add_zero]
      exact hsome k p hk fn
  · obtain ⟨fn0, f⟩ := e
    simp only at hacc
    rw [ingest, if_neg hacc]
    refine ⟨?_, ?_, ?_⟩
    · rw [shapes_addFrame]
      split_ifs with hmem
      · exact hnd
      · exact hnd.append (List.nodup_singleton _)
          (List.disjoint_singleton.mpr hmem)
    · intro k hk
      by_cases hkf : k = shapeOf f
      · exfalso
        cases hold : lookupPat (shapeOf f) ps with
        | none =>
          rw [hkf, lookupPat_addFrame_none fn0 f ps hold] at hk
          cases hk
        | some p =>
          rw [hkf, lookupPat_addFrame_some fn0 f ps p hold] at hk
          cases hk
      · rw [lookupPat_addFrame_other fn0 f k hkf ps] at hk
        rw [cntAllE_append]
        have hsh : ((shapeOf ((fn0, f) : String × FrameInfo).2 == k) : Bool)
            = false := by
          simp only [beq_eq_false_iff_ne, ne_eq]
          exact fun hh => hkf hh.symm
        simp [hnone k hk, hsh]
    · intro k p hk fn
      by_cases hkf : k = shapeOf f
      · subst hkf
        cases hold : lookupPat (shapeOf f) ps with
        | none =>
          rw [lookupPat_addFrame_none fn0 f ps hold] at hk
          injection hk with hk
          subst hk
          have hcnt0 : cntE es fn (shapeOf f) = 0 :=
            cntE_zero_of_cntAllE_zero (hnone _ hold) fn
          rw [cntE_append, hcnt0]
          by_cases hfn : fn = fn0
          · subst hfn
            simp [bumpOcc, lookupOcc, hacc]
          · simp [bumpOcc, lookupOcc, hacc, hfn, Ne.symm hfn]
        | some q =>
          rw [lookupPat_addFrame_some fn0 f ps q hold] at hk
          injection hk with hk
          subst hk
          have hocc := hsome (shapeOf f) q hold
          show lookupOcc fn (bumpOcc fn0 q.occurrences) = _
          rw [lookupOcc_bumpOcc fn0 fn q.occurrences, cntE_append]
          by_cases hfn : fn = fn0
          · subst hfn
            rw [if_pos rfl, hocc fn]
            by_cases hc : cntE es fn (shapeOf f) = 0 <;>
              simp [hc, hacc]
          · rw [if_neg hfn, hocc fn]
            have : ((((fn0, f) : String × FrameInfo).1 == fn) : Bool)
                = false := by
              simp only [beq_eq_false_iff_ne, ne_eq]
              exact fun hh => hfn hh.symm
            simp [this]
      · rw [lookupPat_addFrame_other fn0 f k hkf ps] at hk
        rw [cntE_append]
        have hsh : ((shapeOf ((fn0, f) : String × FrameInfo).2 == k) : Bool)
            = false := by
          simp only [beq_eq_false_iff_ne, ne_eq]
          exact fun hh => hkf hh.symm
        simp only [hsh, Bool.and_false, if_neg (Bool.false_ne_true),
          Nat.add_zero]
        exact hsome k p hk fn

theorem patsOK_foldl (es : List (String × FrameInfo)) :
    patsOK es (es.foldl ingest []) := by
  induction es using List.reverseRecOn with
  | nil => exact ⟨by simp, fun k _ => rfl, fun k p hk => by cases hk⟩
  | append_singleton es e ih =>
    rw [List.foldl_append]
    simp only [List.foldl_cons, List.foldl_nil]
    exact patsOK_step es _ e ih

/-- The collected pattern list satisfies the fold invariant. -/
theorem collectPatterns_patsOK (srcs : List (String × List FrameInfo)) :
    patsOK (flattenSrcs srcs) (collectPatterns srcs) := by
  rw [collectPatterns_eq_foldl]
  exact patsOK_foldl (flattenSrcs srcs)

theorem lookupOcc_isSome_iff (fn : String) : ∀ occ : List (String × Nat),
    (lookupOcc fn occ).isSome = true ↔ fn ∈ occ.map Prod.fst
  | [] => by simp [lookupOcc]
  | (g, c) :: t => by
    by_cases h : g = fn
    · simp [lookupOcc, h]
    · simp only [lookupOcc, if_neg h, List.map_cons, List.mem_cons,
        lookupOcc_isSome_iff fn t]
      constructor
      · exact fun hh => Or.inr hh
      · intro hh
        rcases hh with hh | hh
        · exact absurd hh.symm h
        · exact hh

theorem lookupPat_self : ∀ ps : List UnaccountedFrame,
    (ps.map patShape).Nodup → ∀ p ∈ ps, lookupPat (patShape p) ps = some p
  | [], _, p, hp => by cases hp
  | q :: t, hnd, p, hp => by
    rcases List.mem_cons.mp hp with rfl | hp2
    · simp [lookupPat]
    · simp only [lookupPat]
      have hq : ¬patShape q = patShape p := by
        intro hh
        have : patShape p ∈ t.map patShape := List.mem_map_of_mem patShape hp2
        rw [← hh] at this
        exact (List.nodup_cons.mp (by simpa using hnd)).1 this
      rw [if_neg hq]
      exact lookupPat_self t (List.nodup_cons.mp (by simpa using hnd)).2 p hp2

theorem flattenSrcs_perm {srcs srcs' : List (String × List FrameInfo)}
    (h : srcs.Perm srcs') : (flattenSrcs srcs).Perm (flattenSrcs srcs') := by
  induction h with
  | nil => exact List.Perm.refl _
  | cons x _ ih => exact ih.append_left _
  | swap x y l =>
    show ((y.2.map _ ++ (x.2.map _ ++ flattenSrcs l))).Perm
      ((x.2.map _ ++ (y.2.map _ ++ flattenSrcs l)))
    rw [← List.append_assoc, ← List.append_assoc]
    exact List.perm_append_comm.append_right _
  | trans _ _ ih1 ih2 => exact ih1.trans ih2

theorem cntE_perm {es es' : List (String × FrameInfo)} (h : es.Perm es')
    (fn : String) (k : String × Nat × String) : cntE es fn k = cntE es' fn k :=
  (h.filter _).length_eq

theorem cntAllE_perm {es es' : List (String × FrameInfo)} (h : es.Perm es')
    (k : String × Nat × String) : cntAllE es k = cntAllE es' k :=
  (h.filter _).length_eq

theorem framesOf_perm {srcs srcs' : List (String × List FrameInfo)}
    (h : srcs.Perm srcs') :
    (srcs.map Prod.fst).Nodup → ∀ fn, framesOf srcs fn = framesOf srcs' fn := by
  induction h with
  | nil => exact fun _ _ => rfl
  | cons x h ih =>
    intro hnd fn
    show (if x.1 = fn then x.2 else framesOf _ fn) =
      (if x.1 = fn then x.2 else framesOf _ fn)
    by_cases hx : x.1 = fn
    · rw [if_pos hx, if_pos hx]
    · rw [if_neg hx, if_neg hx]
      exact ih (List.nodup_cons.mp (by simpa using hnd)).2 fn
  | swap x y l =>
    intro hnd fn
    show (if y.1 = fn then y.2 else if x.1 = fn then x.2 else framesOf l fn) =
      (if x.1 = fn then x.2 else if y.1 = fn then y.2 else framesOf l fn)
    have hxy : y.1 ≠ x.1 := by
      have h2 := hnd
      simp only [List.map_cons, List.nodup_cons, List.mem_cons, not_or] at h2
      exact h2.1.1
    by_cases hx : x.1 = fn <;> by_cases hy : y.1 = fn
    · exact absurd (hy.trans hx.symm) hxy
    · rw [if_neg hy, if_pos hx, if_pos hx]
    · rw [if_pos hy, if_neg hx, if_pos hy]
    · rw [if_neg hy, if_neg hx, if_neg hx, if_neg hy]
  | trans h1 _ ih1 ih2 =>
    intro hnd fn
    exact (ih1 hnd fn).trans (ih2 ((h1.map Prod.fst).nodup_iff.mp hnd) fn)

theorem pattern_occ_reads (srcs : List (String × List FrameInfo))
    (p : UnaccountedFrame) (hp : p ∈ collectPatterns srcs) (fn : String) :
    lookupOcc fn p.occurrences =
      if cntE (flattenSrcs srcs) fn (patShape p) = 0 then none
      else some (cntE (flattenSrcs srcs) fn (patShape p)) := by
  obtain ⟨hnd, _, hlook⟩ := collectPatterns_patsOK srcs
  exact hlook (patShape p) p (lookupPat_self _ hnd p hp) fn

theorem occCountD_eq (srcs : List (String × List FrameInfo))
    (p : UnaccountedFrame) (hp : p ∈ collectPatterns srcs) (fn : String) :
    occCountD p fn = cntE (flattenSrcs srcs) fn (patShape p) := by
  rw [occCountD, pattern_occ_reads srcs p hp fn]
  by_cases h : cntE (flattenSrcs srcs) fn (patShape p) = 0 <;> simp [h]

theorem occ_isSome_eq (srcs : List (String × List FrameInfo))
    (p : UnaccountedFrame) (hp : p ∈ collectPatterns srcs) (fn : String) :
    (lookupOcc fn p.occurrences).isSome =
      !(cntE (flattenSrcs srcs) fn (patShape p) == 0) := by
  rw [pattern_occ_reads srcs p hp fn]
  by_cases h : cntE (flattenSrcs srcs) fn (patShape p) = 0 <;> simp [h]

theorem occ_length_catLen (srcs : List (String × List FrameInfo))
    (hnd : (srcs.map Prod.fst).Nodup) (p : UnaccountedFrame)
    (hp : p ∈ collectPatterns srcs) :
    p.occurrences.length = catLen srcs (patShape p) := by
  obtain ⟨hne, hkeys, hsub⟩ := collectPatterns_occGood srcs p hp
  have hsortnd : (sortedNames srcs).Nodup :=
    ((List.perm_insertionSort strLE _).nodup_iff).mpr hnd
  have hperm : (p.occurrences.map Prod.fst).Perm
      ((sortedNames srcs).filter
        (fun fn => !(cntE (flattenSrcs srcs) fn (patShape p) == 0))) := by
    rw [List.perm_ext_iff_of_nodup hkeys (hsortnd.filter _)]
    intro fn
    constructor
    · intro hk
      rw [List.mem_filter]
      refine ⟨?_, ?_⟩
      · exact ((List.perm_insertionSort strLE _).mem_iff).mpr (hsub fn hk)
      · rw [← occ_isSome_eq srcs p hp fn]
        exact (lookupOcc_isSome_iff fn _).mpr hk
    · intro hmem
      rw [List.mem_filter] at hmem
      apply (lookupOcc_isSome_iff fn _).mp
      rw [occ_isSome_eq srcs p hp fn]
      exact hmem.2
  have hlen := hperm.length_eq
  rw [List.length_map] at hlen
  exact hlen

theorem map_shape_filter (q : UnaccountedFrame → Bool)
    (q2 : (String × Nat × String) → Bool) :
    ∀ ps : List UnaccountedFrame, (∀ p ∈ ps, q p = q2 (patShape p)) →
    (ps.filter q).map patShape = (ps.map patShape).filter q2
  | [], _ => rfl
  | p :: t, h => by
    have hh := h p (List.mem_cons_self p t)
    have ht := map_shape_filter q q2 t
      (fun r hr => h r (List.mem_cons_of_mem p hr))
    simp only [List.filter_cons, List.map_cons]
    rw [← hh]
    cases hq : q p <;> simp [hq, ht]

theorem mem_shapes_iff (srcs : List (String × List FrameInfo))
    (k : String × Nat × String) :
    k ∈ (collectPatterns srcs).map patShape ↔
      cntAllE (flattenSrcs srcs) k ≠ 0 := by
  obtain ⟨hnd, hnone, _⟩ := collectPatterns_patsOK srcs
  constructor
  · intro hk
    obtain ⟨p, hp, rfl⟩ := List.mem_map.mp hk
    obtain ⟨hne, _, _⟩ := collectPatterns_occGood srcs p hp
    obtain ⟨g, c, t, hocc⟩ : ∃ g c t, p.occurrences = (g, c) :: t := by
      cases hoc : p.occurrences with
      | nil => exact absurd hoc hne
      | cons gc t =>
        obtain ⟨g, c⟩ := gc
        exact ⟨g, c, t, rfl⟩
    have hread := pattern_occ_reads srcs p hp g
    rw [hocc] at hread
    have hsome : lookupOcc g ((g, c) :: t) = some c := by
      simp [lookupOcc]
    rw [hsome] at hread
    intro hca
    rw [if_pos (cntE_zero_of_cntAllE_zero (by omega) g)] at hread
    cases hread
  · intro hca
    by_contra hk
    exact hca (hnone k ((lookupPat_eq_none_iff k _).mpr hk))

theorem sortedNames_eq {srcs srcs' : List (String × List FrameInfo)}
    (hperm : srcs.Perm srcs') : sortedNames srcs = sortedNames srcs' := by
  refine List.eq_of_perm_of_sorted ?_ (List.sorted_insertionSort strLE _)
    (List.sorted_insertionSort strLE _)
  exact ((List.perm_insertionSort strLE _).trans
    (hperm.map Prod.fst)).trans (List.perm_insertionSort strLE _).symm

theorem cntE_srcs_perm {srcs srcs' : List (String × List FrameInfo)}
    (hperm : srcs.Perm srcs') (fn : String) (k : String × Nat × String) :
    cntE (flattenSrcs srcs) fn k = cntE (flattenSrcs srcs') fn k :=
  cntE_perm (flattenSrcs_perm hperm) fn k

theorem catLen_perm {srcs srcs' : List (String × List FrameInfo)}
    (hperm : srcs.Perm srcs') (k : String × Nat × String) :
    catLen srcs k = catLen srcs' k := by
  unfold catLen
  rw [sortedNames_eq hperm]
  congr 1
  apply List.filter_congr
  intro fn _
  rw [cntE_srcs_perm hperm fn k]

theorem shapes_sorted (ps : List UnaccountedFrame) :
    ((sortFramesByID ps).map patShape).Sorted shapeLE :=
  (List.pairwise_map).mpr (List.sorted_insertionSort patLE ps)

theorem sorted_category_shapes_eq (ps ps' : List UnaccountedFrame)
    (hw : (ps.map patShape).Perm (ps'.map patShape))
    (q q' : UnaccountedFrame → Bool) (q2 : (String × Nat × String) → Bool)
    (hq : ∀ p ∈ ps, q p = q2 (patShape p))
    (hq' : ∀ p ∈ ps', q' p = q2 (patShape p)) :
    (sortFramesByID (ps.filter q)).map patShape =
      (sortFramesByID (ps'.filter q')).map patShape := by
  refine List.eq_of_perm_of_sorted ?_ (shapes_sorted _) (shapes_sorted _)
  · have h1 : ((sortFramesByID (ps.filter q)).map patShape).Perm
        ((ps.map patShape).filter q2) := by
      rw [← map_shape_filter q q2 ps hq]
      exact (List.perm_insertionSort patLE _).map _
    have h2 : ((sortFramesByID (ps'.filter q')).map patShape).Perm
        ((ps'.map patShape).filter q2) := by
      rw [← map_shape_filter q' q2 ps' hq']
      exact (List.perm_insertionSort patLE _).map _
    exact (h1.trans (hw.filter q2)).trans h2.symm

theorem filterMapCongr {α β : Type} (f g : α → Option β) :
    ∀ l : List α, (∀ a ∈ l, f a = g a) → l.filterMap f = l.filterMap g
  | [], _ => rfl
  | a :: t, h => by
    simp only [List.filterMap_cons, h a (List.mem_cons_self a t),
      filterMapCongr f g t (fun x hx => h x (List.mem_cons_of_mem a hx))]

theorem map_row_factor {β : Type} (ps l : List UnaccountedFrame)
    (hsub : ∀ p ∈ l, p ∈ ps)
    (row : UnaccountedFrame → β) (rowk : (String × Nat × String) → β)
    (hrow : ∀ p ∈ ps, row p = rowk (patShape p)) :
    l.map row = (l.map patShape).map rowk := by
  rw [List.map_map]
  exact List.map_congr_left (fun p hp => hrow p (hsub p hp))

theorem length_eq_of_shapes_eq (l l' : List UnaccountedFrame)
    (h : (sortFramesByID l).map patShape =
      (sortFramesByID l').map patShape) : l.length = l'.length := by
  have h1 : l.length = ((sortFramesByID l).map patShape).length := by
    rw [List.length_map, sortFramesByID,
      (List.perm_insertionSort patLE l).length_eq]
  rw [h1, h, List.length_map, sortFramesByID,
    (List.perm_insertionSort patLE l').length_eq]

theorem mem_sortFramesByID {l : List UnaccountedFrame}
    {p : UnaccountedFrame} (hp : p ∈ sortFramesByID l) : p ∈ l :=
  ((List.perm_insertionSort patLE _).mem_iff).mp hp

/-- Claim C8: the categorized comparison report is independent of the
order in which sources are processed (the Go map iteration order), and
within each category — and within each per-source unique list — patterns
appear in ascending (CAN ID text, header byte, payload hex text) order,
so repeated runs over the same inputs produce identical output.
(Determinism of a rerun on the identical list is the reflexive case.) -/
theorem c8_report_order_independent
    (srcs srcs' : List (String × List FrameInfo))
    (hnd : (srcs.map Prod.fst).Nodup) (hperm : srcs.Perm srcs') :
    buildReport srcs = buildReport srcs' ∧
    ((buildReport srcs).commonRows.map Prod.fst).Sorted shapeLE ∧
    (∀ row ∈ (buildReport srcs).uniqueRows,
      (row.2.map Prod.fst).Sorted shapeLE) ∧
    ((buildReport srcs).someRows.map Prod.fst).Sorted shapeLE := by
  have hnd' : (srcs'.map Prod.fst).Nodup :=
    (hperm.map Prod.fst).nodup_iff.mp hnd
  have hnames : sortedNames srcs = sortedNames srcs' := sortedNames_eq hperm
  have hcnt : ∀ fn k, cntE (flattenSrcs srcs) fn k =
      cntE (flattenSrcs srcs') fn k := fun fn k => cntE_srcs_perm hperm fn k
  have hcat : ∀ k, catLen srcs k = catLen srcs' k := catLen_perm hperm
  obtain ⟨hndsh, _, _⟩ := collectPatterns_patsOK srcs
  obtain ⟨hndsh', _, _⟩ := collectPatterns_patsOK srcs'
  have hshapes : ((collectPatterns srcs).map patShape).Perm
      ((collectPatterns srcs').map patShape) := by
    rw [List.perm_ext_iff_of_nodup hndsh hndsh']
    intro k
    rw [mem_shapes_iff srcs k, mem_shapes_iff srcs' k,
      cntAllE_perm (flattenSrcs_perm hperm) k]
  have hqc : ∀ p ∈ collectPatterns srcs,
      ((p.occurrences.length == (sortedNames srcs).length) : Bool) =
      ((catLen srcs (patShape p) == (sortedNames srcs).length) : Bool) :=
    fun p hp => by rw [occ_length_catLen srcs hnd p hp]
  have hqc' : ∀ p ∈ collectPatterns srcs',
      ((p.occurrences.length == (sortedNames srcs').length) : Bool) =
      ((catLen srcs (patShape p) == (sortedNames srcs).length) : Bool) :=
    fun p hp => by rw [occ_length_catLen srcs' hnd' p hp, ← hcat, ← hnames]
  have hcommonShapes :
      (sortFramesByID (commonToAll (collectPatterns srcs)
        (sortedNames srcs).length)).map patShape =
      (sortFramesByID (commonToAll (collectPatterns srcs')
        (sortedNames srcs').length)).map patShape := by
    unfold commonToAll
    exact sorted_category_shapes_eq _ _ hshapes _ _
      (fun k => catLen srcs k == (sortedNames srcs).length) hqc hqc'
  have hqu : ∀ (fn : String), ∀ p ∈ collectPatterns srcs,
      ((!(p.occurrences.length == (sortedNames srcs).length) &&
        (p.occurrences.length == 1) &&
        (lookupOcc fn p.occurrences).isSome) : Bool) =
      ((!(catLen srcs (patShape p) == (sortedNames srcs).length) &&
        (catLen srcs (patShape p) == 1) &&
        !(cntE (flattenSrcs srcs) fn (patShape p) == 0)) : Bool) :=
    fun fn p hp => by
      rw [occ_length_catLen srcs hnd p hp, occ_isSome_eq srcs p hp fn]
  have hqu' : ∀ (fn : String), ∀ p ∈ collectPatterns srcs',
      ((!(p.occurrences.length == (sortedNames srcs').length) &&
        (p.occurrences.length == 1) &&
        (lookupOcc fn p.occurrences).isSome) : Bool) =
      ((!(catLen srcs (patShape p) == (sortedNames srcs).length) &&
        (catLen srcs (patShape p) == 1) &&
        !(cntE (flattenSrcs srcs) fn (patShape p) == 0)) : Bool) :=
    fun fn p hp => by
      rw [occ_length_catLen srcs' hnd' p hp, occ_isSome_eq srcs' p hp fn,
        ← hcat, ← hnames, ← hcnt]
  have huniqueShapes : ∀ fn : String,
      (sortFramesByID (uniqueFor (collectPatterns srcs)
        (sortedNames srcs).length fn)).map patShape =
      (sortFramesByID (uniqueFor (collectPatterns srcs')
        (sortedNames srcs').length fn)).map patShape := fun fn => by
    unfold uniqueFor
    exact sorted_category_shapes_eq _ _ hshapes _ _
      (fun k => !(catLen srcs k == (sortedNames srcs).length) &&
        (catLen srcs k == 1) && !(cntE (flattenSrcs srcs) fn k == 0))
      (hqu fn) (hqu' fn)
  have hqs : ∀ p ∈ collectPatterns srcs,
      ((!(p.occurrences.length == (sortedNames srcs).length) &&
        !(p.occurrences.length == 1)) : Bool) =
      ((!(catLen srcs (patShape p) == (sortedNames srcs).length) &&
        !(catLen srcs (patShape p) == 1)) : Bool) :=
    fun p hp => by rw [occ_length_catLen srcs hnd p hp]
  have hqs' : ∀ p ∈ collectPatterns srcs',
      ((!(p.occurrences.length == (sortedNames srcs').length) &&
        !(p.occurrences.length == 1)) : Bool) =
      ((!(catLen srcs (patShape p) == (sortedNames srcs).length) &&
        !(catLen srcs (patShape p) == 1)) : Bool) :=
    fun p hp => by rw [occ_length_catLen srcs' hnd' p hp, ← hcat, ← hnames]
  have hsomeShapes :
      (sortFramesByID (inSomeFiles (collectPatterns srcs)
        (sortedNames srcs).length)).map patShape =
      (sortFramesByID (inSomeFiles (collectPatterns srcs')
        (sortedNames srcs').length)).map patShape := by
    unfold inSomeFiles
    exact sorted_category_shapes_eq _ _ hshapes _ _
      (fun k => !(catLen srcs k == (sortedNames srcs).length) &&
        !(catLen srcs k == 1)) hqs hqs'
  have hfiles : (sortedNames srcs).map (fun fn =>
      (fn, unaccCount (framesOf srcs fn), (framesOf srcs fn).length)) =
      (sortedNames srcs').map (fun fn =>
      (fn, unaccCount (framesOf srcs' fn), (framesOf srcs' fn).length)) := by
    rw [← hnames]
    exact List.map_congr_left (fun fn _ => by
      rw [framesOf_perm hperm hnd fn])
  have hcrows :
      (sortFramesByID (commonToAll (collectPatterns srcs)
        (sortedNames srcs).length)).map (fun p =>
        (patShape p, (sortedNames srcs).map (fun fn => occCountD p fn))) =
      (sortFramesByID (commonToAll (collectPatterns srcs')
        (sortedNames srcs').length)).map (fun p =>
        (patShape p, (sortedNames srcs').map (fun fn => occCountD p fn))) := by
    rw [map_row_factor (collectPatterns srcs)
      (sortFramesByID (commonToAll (collectPatterns srcs)
        (sortedNames srcs).length))
      (fun p hp => List.mem_of_mem_filter (mem_sortFramesByID hp))
      (fun p => (patShape p, (sortedNames srcs).map
        (fun fn => occCountD p fn)))
      (fun k => (k, (sortedNames srcs).map
        (fun fn => cntE (flattenSrcs srcs) fn k)))
      (fun p hp => by
        exact congrArg (fun x => (patShape p, x))
          (List.map_congr_left (fun fn _ => occCountD_eq srcs p hp fn)))]
    rw [map_row_factor (collectPatterns srcs')
      (sortFramesByID (commonToAll (collectPatterns srcs')
        (sortedNames srcs').length))
      (fun p hp => List.mem_of_mem_filter (mem_sortFramesByID hp))
      (fun p => (patShape p, (sortedNames srcs').map
        (fun fn => occCountD p fn)))
      (fun k => (k, (sortedNames srcs').map
        (fun fn => cntE (flattenSrcs srcs') fn k)))
      (fun p hp => by
        exact congrArg (fun x => (patShape p, x))
          (List.map_congr_left (fun fn _ => occCountD_eq srcs' p hp fn)))]
    rw [hcommonShapes]
    exact List.map_congr_left (fun k _ => by
      rw [← hnames]
      exact congrArg (fun x => (k, x))
        (List.map_congr_left (fun fn _ => hcnt fn k)))
  have hinner : ∀ fn : String,
      (sortFramesByID (uniqueFor (collectPatterns srcs)
        (sortedNames srcs).length fn)).map (fun p =>
        (patShape p, occCountD p fn)) =
      (sortFramesByID (uniqueFor (collectPatterns srcs')
        (sortedNames srcs').length fn)).map (fun p =>
        (patShape p, occCountD p fn)) := fun fn => by
    rw [map_row_factor (collectPatterns srcs)
      (sortFramesByID (uniqueFor (collectPatterns srcs)
        (sortedNames srcs).length fn))
      (fun p hp => List.mem_of_mem_filter (mem_sortFramesByID hp))
      (fun p => (patShape p, occCountD p fn))
      (fun k => (k, cntE (flattenSrcs srcs) fn k))
      (fun p hp => by
        exact congrArg (fun x => (patShape p, x)) (occCountD_eq srcs p hp fn))]
    rw [map_row_factor (collectPatterns srcs')
      (sortFramesByID (uniqueFor (collectPatterns srcs')
        (sortedNames srcs').length fn))
      (fun p hp => List.mem_of_mem_filter (mem_sortFramesByID hp))
      (fun p => (patShape p, occCountD p fn))
      (fun k => (k, cntE (flattenSrcs srcs') fn k))
      (fun p hp => by
        exact congrArg (fun x => (patShape p, x)) (occCountD_eq srcs' p hp fn))]
    rw [huniqueShapes fn]
    exact List.map_congr_left (fun k _ => by rw [hcnt fn k])
  have hurows :
      (sortedNames srcs).map (fun fn => (fn,
        (sortFramesByID (uniqueFor (collectPatterns srcs)
          (sortedNames srcs).length fn)).map (fun p =>
          (patShape p, occCountD p fn)))) =
      (sortedNames srcs').map (fun fn => (fn,
        (sortFramesByID (uniqueFor (collectPatterns srcs')
          (sortedNames srcs').length fn)).map (fun p =>
          (patShape p, occCountD p fn)))) := by
    calc (sortedNames srcs).map (fun fn => (fn,
          (sortFramesByID (uniqueFor (collectPatterns srcs)
            (sortedNames srcs).length fn)).map (fun p =>
            (patShape p, occCountD p fn))))
        = (sortedNames srcs).map (fun fn => (fn,
          (sortFramesByID (uniqueFor (collectPatterns srcs')
            (sortedNames srcs').length fn)).map (fun p =>
            (patShape p, occCountD p fn)))) :=
          List.map_congr_left (fun fn _ =>
            congrArg (fun x => (fn, x)) (hinner fn))
      _ = (sortedNames srcs').map (fun fn => (fn,
          (sortFramesByID (uniqueFor (collectPatterns srcs')
            (sortedNames srcs').length fn)).map (fun p =>
            (patShape p, occCountD p fn)))) := by rw [hnames]
  have hsrows :
      (sortFramesByID (inSomeFiles (collectPatterns srcs)
        (sortedNames srcs).length)).map (fun p =>
        (patShape p, (sortedNames srcs).enum.filterMap (fun e =>
          match lookupOcc e.2 p.occurrences with
          | some c => some (e.1 + 1, c)
          | none => none))) =
      (sortFramesByID (inSomeFiles (collectPatterns srcs')
        (sortedNames srcs').length)).map (fun p =>
        (patShape p, (sortedNames srcs').enum.filterMap (fun e =>
          match lookupOcc e.2 p.occurrences with
          | some c => some (e.1 + 1, c)
          | none => none))) := by
    rw [map_row_factor (collectPatterns srcs)
      (sortFramesByID (inSomeFiles (collectPatterns srcs)
        (sortedNames srcs).length))
      (fun p hp => List.mem_of_mem_filter (mem_sortFramesByID hp))
      (fun p => (patShape p, (sortedNames srcs).enum.filterMap (fun e =>
        match lookupOcc e.2 p.occurrences with
        | some c => some (e.1 + 1, c)
        | none => none)))
      (fun k => (k, (sortedNames srcs).enum.filterMap (fun e =>
        if cntE (flattenSrcs srcs) e.2 k = 0 then none
        else some (e.1 + 1, cntE (flattenSrcs srcs) e.2 k))))
      (fun p hp => by
        exact congrArg (fun x => (patShape p, x))
          (filterMapCongr _ _ _ (fun e _ => by
            rw [pattern_occ_reads srcs p hp e.2]
            by_cases h : cntE (flattenSrcs srcs) e.2 (patShape p) = 0 <;>
              simp [h])))]
    rw [map_row_factor (collectPatterns srcs')
      (sortFramesByID (inSomeFiles (collectPatterns srcs')
        (sortedNames srcs').length))
      (fun p hp => List.mem_of_mem_filter (mem_sortFramesByID hp))
      (fun p => (patShape p, (sortedNames srcs').enum.filterMap (fun e =>
        match lookupOcc e.2 p.occurrences with
        | some c => some (e.1 + 1, c)
        | none => none)))
      (fun k => (k, (sortedNames srcs').enum.filterMap (fun e =>
        if cntE (flattenSrcs srcs') e.2 k = 0 then none
        else some (e.1 + 1, cntE (flattenSrcs srcs') e.2 k))))
      (fun p hp => by
        exact congrArg (fun x => (patShape p, x))
          (filterMapCongr _ _ _ (fun e _ => by
            rw [pattern_occ_reads srcs' p hp e.2]
            by_cases h : cntE (flattenSrcs srcs') e.2 (patShape p) = 0 <;>
              simp [h])))]
    rw [hsomeShapes]
    exact List.map_congr_left (fun k _ => by
      rw [← hnames]
      exact congrArg (fun x => (k, x))
        (filterMapCongr _ _ _ (fun e _ => by rw [hcnt e.2 k])))
  have htot1 : (collectPatterns srcs).length =
      (collectPatterns srcs').length := by
    have := hshapes.length_eq
    simpa using this
  have htot2 : (commonToAll (collectPatterns srcs)
      (sortedNames srcs).length).length =
      (commonToAll (collectPatterns srcs')
      (sortedNames srcs').length).length :=
    length_eq_of_shapes_eq _ _ hcommonShapes
  have htot3 : ((sortedNames srcs).map (fun fn =>
      (uniqueFor (collectPatterns srcs)
        (sortedNames srcs).length fn).length)).sum =
      ((sortedNames srcs').map (fun fn =>
      (uniqueFor (collectPatterns srcs')
        (sortedNames srcs').length fn).length)).sum := by
    calc ((sortedNames srcs).map (fun fn =>
          (uniqueFor (collectPatterns srcs)
            (sortedNames srcs).length fn).length)).sum
        = ((sortedNames srcs).map (fun fn =>
          (uniqueFor (collectPatterns srcs')
            (sortedNames srcs').length fn).length)).sum := by
          congr 1
          exact List.map_congr_left (fun fn _ =>
            length_eq_of_shapes_eq _ _ (huniqueShapes fn))
      _ = ((sortedNames srcs').map (fun fn =>
          (uniqueFor (collectPatterns srcs')
            (sortedNames srcs').length fn).length)).sum := by rw [hnames]
  have htot4 : (inSomeFiles (collectPatterns srcs)
      (sortedNames srcs).length).length =
      (inSomeFiles (collectPatterns srcs')
      (sortedNames srcs').length).length :=
    length_eq_of_shapes_eq _ _ hsomeShapes
  refine ⟨?_, ?_, ?_, ?_⟩
  · simp only [buildReport]
    rw [hfiles, hcrows, hurows, hsrows, htot1, htot2, htot3, htot4]
  · simp only [buildReport, List.map_map]
    exact (List.pairwise_map).mpr (List.sorted_insertionSort patLE _)
  · simp only [buildReport]
    intro row hrow
    obtain ⟨fn, _, rfl⟩ := List.mem_map.mp hrow
    simp only [List.map_map]
    exact (List.pairwise_map).mpr (List.sorted_insertionSort patLE _)
  · simp only [buildReport, List.map_map]
    exact (List.pairwise_map).mpr (List.sorted_insertionSort patLE _)

/-- Witness for C8 at the concrete two-source input processed in both
orders: the reports coincide. -/
theorem c8_report_order_independent_witness :
    buildReport wSrcs = buildReport wSrcs.reverse :=
  (c8_report_order_independent wSrcs wSrcs.reverse (by decide)
    (List.reverse_perm wSrcs).symm).1
